import Mathlib

/-!
Shallow embedding of the zip central-directory reader (src/read.rs and
src/spec.rs).  Byte streams are lists of naturals read little-endian;
machine integers are naturals, with an explicit `2 ^ 64` bound wherever the
source performs checked arithmetic.  Every read in the source is either at a
fixed offset from a seek target or sequential, so reader positions are
computed as absolute indices into the byte list.  Rust panics (assertion
failures, arithmetic-overflow and slice-bound aborts, `unwrap` on an empty
collection) are modelled by the distinguished outcome `ZipErr.panicked`,
which is not a `ZipError` value of the source.
-/

/-- Mirror of `ZipError` (result.rs is summarised by the spec §7), plus
`panicked`, which marks an execution on which the source panics. -/
inductive ZipErr where
  | io : ZipErr
  | invalidArchive : String → ZipErr
  | unsupportedArchive : String → ZipErr
  | invalidPassword : ZipErr
  | fileNotFound : ZipErr
  | panicked : String → ZipErr
deriving DecidableEq, Repr

/- Error messages of the source (apostrophes in two source strings are
rendered as plain words). -/
def msg_invalid_digital_signature : String := "Invalid digital signature header"
def msg_zip64_locator_signature : String := "Invalid zip64 locator digital signature header"
def msg_invalid_zip_header : String := "Invalid zip header"
def msg_no_cde : String := "Could not find central directory end"
def msg_no_zip64_cde : String := "Could not find ZIP64 central directory end"
def msg_no_zip64_room : String := "File cannot contain ZIP64 central directory end"
def msg_invalid_cd_size_offset : String := "Invalid central directory size or offset"
def msg_zip64_more_files_on_disk : String :=
  "ZIP64 footer indicates more files on this disk than in the whole archive"
def msg_zip64_version : String :=
  "ZIP64 footer indicates a newer version is needed to extract this archive"
def msg_counts_mismatch : String := "ZIP32 and ZIP64 file counts do not match"
def msg_disks_mismatch : String := "ZIP32 and ZIP64 disk numbers do not match"
def msg_last_disks_mismatch : String := "ZIP32 and ZIP64 last-disk numbers do not match"
def msg_multi_disk : String := "Support for multi-disk files is not implemented"
def msg_invalid_cd_header : String := "Invalid Central Directory header"
def msg_invalid_local_header : String := "Invalid local file header"
def msg_aes_extra_len : String := "AES extra data field has an unsupported length"
def msg_aes_vendor : String := "Invalid AES vendor"
def msg_aes_vendor_version : String := "Invalid AES vendor version"
def msg_aes_strength : String := "Invalid AES encryption strength"
def msg_aes_missing : String := "AES encryption without AES extra data field"
def msg_header_too_large : String := "Archive header is too large"
def msg_method_unsupported : String := "Compression method not supported"
def msg_aes_needs_feature : String :=
  "AES encrypted files cannot be decrypted without the aes-crypto feature."
def msg_password_required : String := "Password required to decrypt file"
def msg_merge_header_overflow : String := "new header start from merge would have been too large"
def msg_merge_data_overflow : String := "new data start from merge would have been too large"
def msg_panic_window : String := "window end before window start"
def msg_panic_unwrap : String := "unwrap of an empty error list"

/-- Little-endian value of `n` bytes of `bytes` starting at `off`
(missing positions read as 0; reads are guarded by length checks). -/
def leVal : List Nat → Nat → Nat → Nat
  | _, _, 0 => 0
  | bytes, off, Nat.succ m => bytes.getD off 0 + 256 * leVal bytes (off + 1) m

/-- `read_uNN_le` / `read_exact` followed by a little-endian decode: `Io`
when fewer than `n` bytes remain. -/
def readLE (bytes : List Nat) (pos n : Nat) : Except ZipErr Nat :=
  if pos + n ≤ bytes.length then .ok (leVal bytes pos n) else .error .io

/-- The sub-list of `n` bytes starting at `pos` (shorter at end of input). -/
def sliceL (bytes : List Nat) (pos n : Nat) : List Nat := (bytes.drop pos).take n

/-- `read_exact` of `n` bytes at `pos`. -/
def readBytes (bytes : List Nat) (pos n : Nat) : Except ZipErr (List Nat) :=
  if pos + n ≤ bytes.length then .ok (sliceL bytes pos n) else .error .io

def u16le (n : Nat) : List Nat := [n % 256, n / 256 % 256]
def u32le (n : Nat) : List Nat := u16le (n % 65536) ++ u16le (n / 65536 % 65536)
def u64le (n : Nat) : List Nat := u32le (n % 4294967296) ++ u32le (n / 4294967296)

def localFileHeaderSig : Nat := 0x04034b50
def centralDirectoryHeaderSig : Nat := 0x02014b50
def centralDirectoryEndSig : Nat := 0x06054b50
def zip64CentralDirectoryEndSig : Nat := 0x06064b50
def zip64LocatorSig : Nat := 0x07064b50

/-- Offsets inside a window at which the 4-byte little-endian signature
occurs, rightmost first (`FinderRev::rfind_iter`).  The searched signatures
cannot overlap themselves, so every occurrence is reported. -/
def sigPositionsRev (window sig : List Nat) : List Nat :=
  ((List.range window.length).filter (fun i => sliceL window i 4 == sig)).reverse

/-- `Zip32CentralDirectoryEnd` (spec.rs): the ZIP32 EOCD record. -/
structure Zip32CentralDirectoryEnd where
  disk_number : Nat
  disk_with_central_directory : Nat
  number_of_files_on_this_disk : Nat
  number_of_files : Nat
  central_directory_size : Nat
  central_directory_offset : Nat
  zip_file_comment : List Nat
deriving DecidableEq, Repr

/-- `Zip32CentralDirectoryEnd::parse` at absolute position `pos`:
`Zip32CDEBlock::parse` reads 22 bytes (`read_exact`, `Io` on shortfall),
`interpret` checks the magic, then the comment is read with `read_exact`. -/
def Zip32CentralDirectoryEnd.parse (bytes : List Nat) (pos : Nat) :
    Except ZipErr Zip32CentralDirectoryEnd :=
  if pos + 22 ≤ bytes.length then
    if leVal bytes pos 4 = centralDirectoryEndSig then
      let clen := leVal bytes (pos + 20) 2
      if pos + 22 + clen ≤ bytes.length then
        .ok { disk_number := leVal bytes (pos + 4) 2
              disk_with_central_directory := leVal bytes (pos + 6) 2
              number_of_files_on_this_disk := leVal bytes (pos + 8) 2
              number_of_files := leVal bytes (pos + 10) 2
              central_directory_size := leVal bytes (pos + 12) 4
              central_directory_offset := leVal bytes (pos + 16) 4
              zip_file_comment := sliceL bytes (pos + 22) clen }
      else .error .io
    else .error (.invalidArchive msg_invalid_digital_signature)
  else .error .io

/-- Inner candidate loop of the ZIP32 search: try each candidate position
(rightmost first); a candidate whose parse fails is dropped. -/
def tryCandidates32 (bytes : List Nat) :
    List Nat → Option (Zip32CentralDirectoryEnd × Nat)
  | [] => none
  | p :: rest =>
    match Zip32CentralDirectoryEnd.parse bytes p with
    | .ok cde => some (cde, p)
    | .error _ => tryCandidates32 bytes rest

/-- The reverse 512-byte-window loop of
`Zip32CentralDirectoryEnd::find_and_parse`.  `fuel` only bounds the
recursion; call sites pass more fuel than the loop can consume (the window
start strictly decreases, so `file_length + 2` always suffices). -/
def zip32SearchLoop (bytes : List Nat) (flen : Nat) :
    Nat → Nat → Except ZipErr (Zip32CentralDirectoryEnd × Nat)
  | 0, _ => .error (.invalidArchive msg_no_cde)
  | fuel + 1, ws =>
    match readBytes bytes ws (min (ws + 512) flen - ws) with
    | .error e => .error e
    | .ok window =>
      match tryCandidates32 bytes
          ((sigPositionsRev window (u32le centralDirectoryEndSig)).map (· + ws)) with
      | some r => .ok r
      | none =>
        if ws = 0 then .error (.invalidArchive msg_no_cde)
        else zip32SearchLoop bytes flen fuel (min (ws + 4) flen - 512)

/-- `Zip32CentralDirectoryEnd::find_and_parse`: returns the parsed EOCD and
its absolute position `cde_start_pos`. -/
def Zip32CentralDirectoryEnd.find_and_parse (bytes : List Nat) :
    Except ZipErr (Zip32CentralDirectoryEnd × Nat) :=
  let flen := bytes.length
  if flen < 22 then .error (.invalidArchive msg_invalid_zip_header)
  else zip32SearchLoop bytes flen (flen + 2) (flen - 512)

/-- `Zip64CentralDirectoryEnd` (spec.rs): the ZIP64 EOCD record (the
extensible data sector is not read by the source). -/
structure Zip64CentralDirectoryEnd where
  version_made_by : Nat
  version_needed_to_extract : Nat
  disk_number : Nat
  disk_with_central_directory : Nat
  number_of_files_on_this_disk : Nat
  number_of_files : Nat
  central_directory_size : Nat
  central_directory_offset : Nat
deriving DecidableEq, Repr

/-- `Zip64CentralDirectoryEnd::parse` at absolute position `pos`:
`Zip64CDEBlock::parse` reads the 56-byte block, then `interpret` checks the
magic and decodes the fields (`record_size` at offset 4 is dropped). -/
def Zip64CentralDirectoryEnd.parse (bytes : List Nat) (pos : Nat) :
    Except ZipErr Zip64CentralDirectoryEnd :=
  if pos + 56 ≤ bytes.length then
    if leVal bytes pos 4 = zip64CentralDirectoryEndSig then
      .ok { version_made_by := leVal bytes (pos + 12) 2
            version_needed_to_extract := leVal bytes (pos + 14) 2
            disk_number := leVal bytes (pos + 16) 4
            disk_with_central_directory := leVal bytes (pos + 20) 4
            number_of_files_on_this_disk := leVal bytes (pos + 24) 8
            number_of_files := leVal bytes (pos + 32) 8
            central_directory_size := leVal bytes (pos + 40) 8
            central_directory_offset := leVal bytes (pos + 48) 8 }
    else .error (.invalidArchive msg_invalid_digital_signature)
  else .error .io

/-- `Zip64CentralDirectoryEndLocator` (spec.rs). -/
structure Zip64CentralDirectoryEndLocator where
  disk_with_central_directory : Nat
  end_of_central_directory_offset : Nat
  number_of_disks : Nat
deriving DecidableEq, Repr

/-- `Zip64CentralDirectoryEndLocator::parse` at absolute position `pos`:
20-byte block read, magic check, field decode. -/
def Zip64CentralDirectoryEndLocator.parse (bytes : List Nat) (pos : Nat) :
    Except ZipErr Zip64CentralDirectoryEndLocator :=
  if pos + 20 ≤ bytes.length then
    if leVal bytes pos 4 = zip64LocatorSig then
      .ok { disk_with_central_directory := leVal bytes (pos + 4) 4
            end_of_central_directory_offset := leVal bytes (pos + 8) 8
            number_of_disks := leVal bytes (pos + 16) 4 }
    else .error (.invalidArchive msg_zip64_locator_signature)
  else .error .io

/-- Inner candidate loop of the ZIP64 search: each candidate at absolute
position `p` is parsed (parse failures abort the whole search via `?`) and
paired with its derived `archive_offset = p − nominal`. -/
def collectCandidates64 (bytes : List Nat) (nominal : Nat) :
    List Nat → Except ZipErr (List (Zip64CentralDirectoryEnd × Nat))
  | [] => .ok []
  | p :: rest =>
    match Zip64CentralDirectoryEnd.parse bytes p with
    | .error e => .error e
    | .ok cde =>
      match collectCandidates64 bytes nominal rest with
      | .error e => .error e
      | .ok l => .ok ((cde, p - nominal) :: l)

/-- End of the ZIP64 search loop: an empty result list is
`InvalidArchive`. -/
def zip64Finish (acc : List (Zip64CentralDirectoryEnd × Nat)) :
    Except ZipErr (List (Zip64CentralDirectoryEnd × Nat)) :=
  if acc.isEmpty then .error (.invalidArchive msg_no_zip64_cde) else .ok acc

/-- The 2048-byte-window loop of `Zip64CentralDirectoryEnd::find_and_parse`.
When the window end `min (ws + 2048) upper` falls before the window start
(possible when `nominal > upper`), the source panics — `end - window_start`
underflows under debug assertions, and in release the wrapped length makes
`&mut window[..cur_len]` abort — modelled by `ZipErr.panicked`.  `fuel`
only bounds the recursion; call sites pass more than the loop can consume
(the window start strictly decreases towards `nominal`). -/
def zip64SearchLoop (bytes : List Nat) (nominal upper : Nat) :
    Nat → Nat → List (Zip64CentralDirectoryEnd × Nat) →
      Except ZipErr (List (Zip64CentralDirectoryEnd × Nat))
  | 0, _, acc => zip64Finish acc
  | fuel + 1, ws, acc =>
    if min (ws + 2048) upper < ws then .error (.panicked msg_panic_window)
    else if min (ws + 2048) upper - ws = 0 then zip64Finish acc
    else
      match readBytes bytes ws (min (ws + 2048) upper - ws) with
      | .error e => .error e
      | .ok window =>
        match collectCandidates64 bytes nominal
            ((sigPositionsRev window (u32le zip64CentralDirectoryEndSig)).map (· + ws)) with
        | .error e => .error e
        | .ok found =>
          let acc2 := acc ++ found
          if ws = nominal then zip64Finish acc2
          else zip64SearchLoop bytes nominal upper fuel
            (max (min (ws + 4) upper - 2048) nominal) acc2

/-- `Zip64CentralDirectoryEnd::find_and_parse`: all parsed candidates in
`[nominal, upper)`, each with its derived archive offset. -/
def Zip64CentralDirectoryEnd.find_and_parse (bytes : List Nat) (nominal upper : Nat) :
    Except ZipErr (List (Zip64CentralDirectoryEnd × Nat)) :=
  zip64SearchLoop bytes nominal upper (upper + 2) (max (upper - 2048) nominal) []

/-- `CentralDirectoryInfo` (read.rs). -/
structure CentralDirectoryInfo where
  archive_offset : Nat
  directory_start : Nat
  number_of_files : Nat
  disk_number : Nat
  disk_with_central_directory : Nat
deriving DecidableEq, Repr

/-- `ZipArchive::get_directory_info_zip32`: the two chained `checked_sub`
calls fail exactly when `cde_start_pos < size + offset`. -/
def get_directory_info_zip32 (footer : Zip32CentralDirectoryEnd) (cde_start_pos : Nat) :
    Except ZipErr CentralDirectoryInfo :=
  if cde_start_pos < footer.central_directory_size + footer.central_directory_offset then
    .error (.invalidArchive msg_invalid_cd_size_offset)
  else
    let archive_offset :=
      cde_start_pos - footer.central_directory_size - footer.central_directory_offset
    .ok { archive_offset
          directory_start := footer.central_directory_offset + archive_offset
          number_of_files := footer.number_of_files_on_this_disk
          disk_number := footer.disk_number
          disk_with_central_directory := footer.disk_with_central_directory }

/-- The per-candidate reconciliation of `ZipArchive::get_directory_info_zip64`
(the body of the `search_results.into_iter().for_each` closure).  `upper` is
`search_upper_bound = cde_start_pos - 60`; the `2 ^ 64` test models the
`checked_add` on `central_directory_offset + archive_offset`. -/
def checkZip64Candidate (upper : Nat) (c : Zip64CentralDirectoryEnd × Nat) :
    Except ZipErr CentralDirectoryInfo :=
  if 2 ^ 64 ≤ c.1.central_directory_offset + c.2 then
    .error (.invalidArchive msg_invalid_cd_size_offset)
  else if upper < c.1.central_directory_offset + c.2 then
    .error (.invalidArchive msg_invalid_cd_size_offset)
  else if c.1.number_of_files < c.1.number_of_files_on_this_disk then
    .error (.invalidArchive msg_zip64_more_files_on_disk)
  else if c.1.version_made_by < c.1.version_needed_to_extract then
    .error (.invalidArchive msg_zip64_version)
  else
    .ok { archive_offset := c.2
          directory_start := c.1.central_directory_offset + c.2
          number_of_files := c.1.number_of_files
          disk_number := c.1.disk_number
          disk_with_central_directory := c.1.disk_with_central_directory }

/-- `ZipArchive::get_directory_info_zip64`: seek to
`EOF − (20 + 22 + comment_len)` (an `Io` error when that is negative, as for
`std::io::Cursor`), parse the locator, compute
`search_upper_bound = cde_start_pos − 60` (`checked_sub`), search, and check
every candidate. -/
def get_directory_info_zip64 (bytes : List Nat) (footer : Zip32CentralDirectoryEnd)
    (cde_start_pos : Nat) : Except ZipErr (List (Except ZipErr CentralDirectoryInfo)) :=
  if bytes.length < 42 + footer.zip_file_comment.length then .error .io
  else
    match Zip64CentralDirectoryEndLocator.parse bytes
        (bytes.length - (42 + footer.zip_file_comment.length)) with
    | .error e => .error e
    | .ok locator64 =>
      if cde_start_pos < 60 then .error (.invalidArchive msg_no_zip64_room)
      else
        match Zip64CentralDirectoryEnd.find_and_parse bytes
            locator64.end_of_central_directory_offset (cde_start_pos - 60) with
        | .error e => .error e
        | .ok cands => .ok (cands.map (checkZip64Candidate (cde_start_pos - 60)))

/-- `AesMode` (types.rs is outside src/; the three strengths are fixed by
the spec §4.D). -/
inductive AesMode where
  | aes128 | aes192 | aes256
deriving DecidableEq, Repr

/-- `AesVendorVersion` (types.rs is outside src/; AE-1/AE-2 per spec). -/
inductive AesVendorVersion where
  | ae1 | ae2
deriving DecidableEq, Repr

/-- `ZipFileData` (types.rs is outside src/): the fields read.rs constructs
and uses.  Compression methods are kept as their numeric ids
(`CompressionMethod::from_u16` keeps the raw id; spec §6 lists the
recognized ids).  `DateTime` is kept as the raw MS-DOS date and time words
(`DateTime::from_msdos`); `timepart()` is the raw time word.  Name and
comment decoding (UTF-8 / CP437, cp437.rs outside src/) is elided: names
are raw bytes, so name equality is raw-byte equality. -/
structure ZipFileData where
  system : Nat
  version_made_by : Nat
  encrypted : Bool
  using_data_descriptor : Bool
  compression_method : Nat
  last_mod_time : Nat
  last_mod_date : Nat
  crc32 : Nat
  compressed_size : Nat
  uncompressed_size : Nat
  file_name : List Nat
  file_name_raw : List Nat
  extra_field : Option (List Nat)
  central_extra_field : Option (List Nat)
  file_comment : List Nat
  header_start : Nat
  extra_data_start : Option Nat
  central_header_start : Nat
  data_start : Option Nat
  external_attributes : Nat
  large_file : Bool
  aes_mode : Option (AesMode × AesVendorVersion × Nat)
  aes_extra_data_start : Nat
  extra_fields : List (List Nat)
deriving DecidableEq, Repr

/-- `spec::ZIP64_BYTES_THR = u32::MAX as u64`. -/
def zip64BytesThr : Nat := 4294967295

/-- First conditional 8-byte read of the ZIP64 extra: `uncompressed_size`.
`large_file` is set before the read, so it survives a truncated extra. -/
def zip64ExtraSize1 (extra : List Nat) (pos : Nat) (f : ZipFileData) :
    ZipFileData × Nat × Option ZipErr :=
  if f.uncompressed_size = zip64BytesThr then
    let f1 := { f with large_file := true }
    match readLE extra pos 8 with
    | .error _ => (f1, pos, some .io)
    | .ok v => ({ f1 with uncompressed_size := v }, pos + 8, none)
  else (f, pos, none)

/-- Second conditional 8-byte read of the ZIP64 extra: `compressed_size`. -/
def zip64ExtraSize2 (extra : List Nat) (pos : Nat) (f : ZipFileData) :
    ZipFileData × Nat × Option ZipErr :=
  if f.compressed_size = zip64BytesThr then
    let f1 := { f with large_file := true }
    match readLE extra pos 8 with
    | .error _ => (f1, pos, some .io)
    | .ok v => ({ f1 with compressed_size := v }, pos + 8, none)
  else (f, pos, none)

/-- Third conditional 8-byte read of the ZIP64 extra: `header_start`
(no `large_file` flag for this one). -/
def zip64ExtraSize3 (extra : List Nat) (pos : Nat) (f : ZipFileData) :
    ZipFileData × Nat × Option ZipErr :=
  if f.header_start = zip64BytesThr then
    match readLE extra pos 8 with
    | .error _ => (f, pos, some .io)
    | .ok v => ({ f with header_start := v }, pos + 8, none)
  else (f, pos, none)

/-- The `0x0001` branch of `parse_extra_field`: the three sentinel-guarded
64-bit overrides in their fixed order. -/
def zip64ExtraChain (extra : List Nat) (pos : Nat) (f : ZipFileData) :
    ZipFileData × Nat × Option ZipErr :=
  match zip64ExtraSize1 extra pos f with
  | (f1, p1, some e) => (f1, p1, some e)
  | (f1, p1, none) =>
    match zip64ExtraSize2 extra p1 f1 with
    | (f2, p2, some e) => (f2, p2, some e)
    | (f2, p2, none) => zip64ExtraSize3 extra p2 f2

/-- The TLV loop of `parse_extra_field` over the extra bytes, with the
cursor position and the partially updated descriptor as explicit state.
The result carries the (possibly partially mutated) descriptor and the
error, if any, because the caller swallows `Io` errors while keeping the
mutations.  The `0x5455` branch is modelled from the spec (§4.D):
`ExtendedTimestamp::try_from_reader` (extra_fields.rs, outside src/)
consumes exactly `len` payload bytes, which are recorded in
`extra_fields`.  `fuel` only bounds the recursion; every iteration advances
the cursor by at least 4, so `extra.length + 1` always suffices. -/
def parseExtraLoop (extra : List Nat) :
    Nat → Nat → ZipFileData → ZipFileData × Option ZipErr
  | 0, _, f => (f, none)
  | fuel + 1, pos, f =>
    if pos < extra.length then
      match readLE extra pos 2 with
      | .error _ => (f, some .io)
      | .ok kind =>
        match readLE extra (pos + 2) 2 with
        | .error _ => (f, some .io)
        | .ok len =>
          if kind = 1 then
            match zip64ExtraChain extra (pos + 4) f with
            | (f2, _, some e) => (f2, some e)
            | (f2, p2, none) =>
              parseExtraLoop extra fuel
                (if p2 - (pos + 4) < len then p2 + (len - (p2 - (pos + 4))) else p2) f2
          else if kind = 39169 then
            if len ≠ 7 then (f, some (.unsupportedArchive msg_aes_extra_len))
            else if pos + 11 ≤ extra.length then
              let vendor_version := leVal extra (pos + 4) 2
              let vendor_id := leVal extra (pos + 6) 2
              let aes_byte := extra.getD (pos + 8) 0
              let method := leVal extra (pos + 9) 2
              if vendor_id ≠ 17729 then (f, some (.invalidArchive msg_aes_vendor))
              else
                match (match vendor_version with
                       | 1 => some AesVendorVersion.ae1
                       | 2 => some AesVendorVersion.ae2
                       | _ => none) with
                | none => (f, some (.invalidArchive msg_aes_vendor_version))
                | some vv =>
                  match (match aes_byte with
                         | 1 => some AesMode.aes128
                         | 2 => some AesMode.aes192
                         | 3 => some AesMode.aes256
                         | _ => none) with
                  | none => (f, some (.invalidArchive msg_aes_strength))
                  | some am =>
                    parseExtraLoop extra fuel (pos + 11)
                      { f with aes_mode := some (am, vv, method),
                               compression_method := method }
            else (f, some .io)
          else if kind = 21589 then
            if pos + 4 + len ≤ extra.length then
              parseExtraLoop extra fuel (pos + 4 + len)
                { f with extra_fields := f.extra_fields ++ [sliceL extra (pos + 4) len] }
            else (f, some .io)
          else
            parseExtraLoop extra fuel (pos + 4 + len) f
    else (f, none)

/-- `parse_extra_field`: iterate the TLV loop over `extra_field`, if
present. -/
def parse_extra_field (f : ZipFileData) : ZipFileData × Option ZipErr :=
  match f.extra_field with
  | none => (f, none)
  | some extra => parseExtraLoop extra (extra.length + 1) 0 f

/-- Tail of `central_header_to_zip_file_inner` after the extras: the
AES-without-extra check, then the `checked_add` of `archive_offset` onto
`header_start`. -/
def centralHeaderFinish (archive_offset pos_next : Nat) (d : ZipFileData) :
    Except ZipErr (ZipFileData × Nat) :=
  if d.compression_method = 99 ∧ d.aes_mode = none then
    .error (.invalidArchive msg_aes_missing)
  else if 2 ^ 64 ≤ d.header_start + archive_offset then
    .error (.invalidArchive msg_header_too_large)
  else .ok ({ d with header_start := d.header_start + archive_offset }, pos_next)

/-- `central_header_to_zip_file` (+ `_inner`) at absolute position `pos`:
signature check, fixed 46-byte prefix, variable name/extra/comment, extras
parse (whose `Io` failures are swallowed, keeping partial mutations), the
AES consistency check, and the `checked_add` of `archive_offset`.  Returns
the descriptor and the position after the entry. -/
def central_header_to_zip_file (bytes : List Nat) (archive_offset pos : Nat) :
    Except ZipErr (ZipFileData × Nat) :=
  if pos + 4 ≤ bytes.length then
    if leVal bytes pos 4 = centralDirectoryHeaderSig then
      if pos + 46 ≤ bytes.length then
        let vmb := leVal bytes (pos + 4) 2
        let flags := leVal bytes (pos + 8) 2
        let nlen := leVal bytes (pos + 28) 2
        let elen := leVal bytes (pos + 30) 2
        let clen := leVal bytes (pos + 32) 2
        if pos + 46 + nlen + elen + clen ≤ bytes.length then
          let name := sliceL bytes (pos + 46) nlen
          let d0 : ZipFileData :=
            { system := vmb / 256 % 256
              version_made_by := vmb % 256
              encrypted := flags.testBit 0
              using_data_descriptor := flags.testBit 3
              compression_method := leVal bytes (pos + 10) 2
              last_mod_time := leVal bytes (pos + 12) 2
              last_mod_date := leVal bytes (pos + 14) 2
              crc32 := leVal bytes (pos + 16) 4
              compressed_size := leVal bytes (pos + 20) 4
              uncompressed_size := leVal bytes (pos + 24) 4
              file_name := name
              file_name_raw := name
              extra_field := some (sliceL bytes (pos + 46 + nlen) elen)
              central_extra_field := none
              file_comment := sliceL bytes (pos + 46 + nlen + elen) clen
              header_start := leVal bytes (pos + 42) 4
              extra_data_start := none
              central_header_start := pos
              data_start := none
              external_attributes := leVal bytes (pos + 38) 4
              large_file := false
              aes_mode := none
              aes_extra_data_start := 0
              extra_fields := [] }
          match parse_extra_field d0 with
          | (d, none) => centralHeaderFinish archive_offset (pos + 46 + nlen + elen + clen) d
          | (d, some .io) => centralHeaderFinish archive_offset (pos + 46 + nlen + elen + clen) d
          | (_, some e) => .error e
        else .error .io
      else .error .io
    else .error (.invalidArchive msg_invalid_cd_header)
  else .error .io

/-- `IndexMap::insert` on an insertion-ordered association list: an existing
key keeps its position (and original key) and has its value replaced; a new
key is appended. -/
def indexInsert : List (List Nat × ZipFileData) → List Nat → ZipFileData →
    List (List Nat × ZipFileData)
  | [], k, v => [(k, v)]
  | (k0, v0) :: rest, k, v =>
    if k = k0 then (k0, v) :: rest else (k0, v0) :: indexInsert rest k v

/-- The `for _ in 0..dir_info.number_of_files` loop of `get_metadata`:
sequentially parse `n` central-directory entries starting at `pos`,
inserting each into the map keyed by its (decoded) name. -/
def parse_directory_entries (bytes : List Nat) (archive_offset : Nat) :
    Nat → Nat → List (List Nat × ZipFileData) →
      Except ZipErr (List (List Nat × ZipFileData))
  | 0, _, acc => .ok acc
  | n + 1, pos, acc =>
    match central_header_to_zip_file bytes archive_offset pos with
    | .error e => .error e
    | .ok (d, pos2) =>
      parse_directory_entries bytes archive_offset n pos2 (indexInsert acc d.file_name d)

/-- `Shared` (read.rs::zip_archive). -/
structure Shared where
  files : List (List Nat × ZipFileData)
  offset : Nat
  dir_start : Nat
deriving DecidableEq, Repr

/-- Per-candidate body of the `results.into_iter().map` in `get_metadata`:
seek to `directory_start`, parse the declared number of entries, then the
multi-disk check.  (`file_capacity` only affects allocation, not results,
and is not modelled.) -/
def parse_candidate (bytes : List Nat) (info : CentralDirectoryInfo) :
    Except ZipErr Shared :=
  match parse_directory_entries bytes info.archive_offset info.number_of_files
      info.directory_start [] with
  | .error e => .error e
  | .ok files =>
    if info.disk_number ≠ info.disk_with_central_directory then
      .error (.unsupportedArchive msg_multi_disk)
    else .ok { files := files, offset := info.archive_offset,
               dir_start := info.directory_start }

/-- The `results.iter_mut().for_each` cross-check of `get_metadata`: a ZIP64
candidate must agree with the ZIP32 view on counts and disk numbers unless
the ZIP32 field is the `u16::MAX` sentinel. -/
def cross_check_zip64 (z32 : Except ZipErr CentralDirectoryInfo)
    (r : Except ZipErr CentralDirectoryInfo) : Except ZipErr CentralDirectoryInfo :=
  match r, z32 with
  | .ok c, .ok z =>
    if c.number_of_files ≠ z.number_of_files ∧ z.number_of_files ≠ 65535 then
      .error (.invalidArchive msg_counts_mismatch)
    else if c.disk_number ≠ z.disk_number ∧ z.disk_number ≠ 65535 then
      .error (.invalidArchive msg_disks_mismatch)
    else if c.disk_with_central_directory ≠ z.disk_with_central_directory ∧
        z.disk_with_central_directory ≠ 65535 then
      .error (.invalidArchive msg_last_disks_mismatch)
    else .ok c
  | _, _ => r

/-- `get_metadata`, step 1: the ZIP64 candidate list, with a ZIP64-probe
failure collapsed to a single error entry
(`.unwrap_or_else(|e| vec![Err(e)])`). -/
def raw_zip64_results (bytes : List Nat) (footer : Zip32CentralDirectoryEnd)
    (cde_start_pos : Nat) : List (Except ZipErr CentralDirectoryInfo) :=
  match get_directory_info_zip64 bytes footer cde_start_pos with
  | .error e => [.error e]
  | .ok l => l

/-- `get_metadata`, step 2: cross-check every ZIP64 candidate against the
ZIP32 view, then append the ZIP32 view as the final candidate. -/
def candidate_results (bytes : List Nat) (footer : Zip32CentralDirectoryEnd)
    (cde_start_pos : Nat) : List (Except ZipErr CentralDirectoryInfo) :=
  (raw_zip64_results bytes footer cde_start_pos).map
      (cross_check_zip64 (get_directory_info_zip32 footer cde_start_pos)) ++
    [get_directory_info_zip32 footer cde_start_pos]

/-- `get_metadata`, step 3: attempt to parse the central directory of every
candidate. -/
def parsed_results (bytes : List Nat) (footer : Zip32CentralDirectoryEnd)
    (cde_start_pos : Nat) : List (Except ZipErr Shared) :=
  (candidate_results bytes footer cde_start_pos).map
    (fun r => match r with
              | .error e => .error e
              | .ok info => parse_candidate bytes info)

/-- The failures among the per-candidate results, in processing order. -/
def errors_of (l : List (Except ZipErr Shared)) : List ZipErr :=
  l.filterMap (fun r => match r with | .error e => some e | .ok _ => none)

/-- The successful per-candidate results (`ok_results`), in processing
order. -/
def ok_results (l : List (Except ZipErr Shared)) : List Shared :=
  l.filterMap (fun r => match r with | .ok s => some s | .error _ => none)

/-- Discriminates the errors pushed onto `unsupported_errors`. -/
def is_unsupported : ZipErr → Bool
  | .unsupportedArchive _ => true
  | _ => false

/-- `Iterator::max_by_key` on `dir_start`: the last element with the
maximal key wins. -/
def select_max_dir_start : Shared → List Shared → Shared
  | best, [] => best
  | best, s :: rest =>
    if best.dir_start ≤ s.dir_start then select_max_dir_start s rest
    else select_max_dir_start best rest

/-- `ZipArchive::get_metadata`: reconcile all candidates, pick the parsed
candidate with the largest `dir_start`, or surface the first unsupported
error, else the first other error.  The source `unwrap`s when both error
lists are empty; that case is unreachable (the ZIP32 view is always a
candidate) and modelled by `panicked`. -/
def get_metadata (bytes : List Nat) (footer : Zip32CentralDirectoryEnd)
    (cde_start_pos : Nat) : Except ZipErr Shared :=
  match ok_results (parsed_results bytes footer cde_start_pos) with
  | [] =>
    match (errors_of (parsed_results bytes footer cde_start_pos)).filter is_unsupported with
    | e :: _ => .error e
    | [] =>
      match (errors_of (parsed_results bytes footer cde_start_pos)).filter
          (fun e => ! is_unsupported e) with
      | e :: _ => .error e
      | [] => .error (.panicked msg_panic_unwrap)
  | s :: rest => .ok (select_max_dir_start s rest)

/-- `ZipArchive` (read.rs::zip_archive): the reader it owns is the byte
list; `Shared` is inlined alongside the archive comment. -/
structure ZipArchiveData where
  bytes : List Nat
  files : List (List Nat × ZipFileData)
  offset : Nat
  dir_start : Nat
  comment : List Nat
deriving DecidableEq, Repr

/-- `ZipArchive::len`. -/
def ZipArchiveData.len (a : ZipArchiveData) : Nat := a.files.length

/-- `ZipArchive::new`. -/
def zip_archive_new (bytes : List Nat) : Except ZipErr ZipArchiveData :=
  match Zip32CentralDirectoryEnd.find_and_parse bytes with
  | .error e => .error e
  | .ok (footer, cde_start_pos) =>
    match get_metadata bytes footer cde_start_pos with
    | .error e => .error e
    | .ok sh =>
      .ok { bytes := bytes, files := sh.files, offset := sh.offset,
            dir_start := sh.dir_start, comment := footer.zip_file_comment }

/-- `find_content`: seek to `header_start`, check the local-file-header
magic, lazily initialize `data_start` (`OnceLock::get_or_init`, first
writer wins: an already set value is reused unchanged and nothing is read),
seek to `data_start` and return the descriptor (with its one-shot cell
possibly now set) together with the content of the
`take(compressed_size)` view.  The `data_start` sum is plain `u64`
arithmetic in the source; it cannot wrap for readers shorter than `2 ^ 64`
bytes because the two length words were just read below `header_start + 30`. -/
def find_content (data : ZipFileData) (bytes : List Nat) :
    Except ZipErr (ZipFileData × List Nat) :=
  if data.header_start + 4 ≤ bytes.length then
    if leVal bytes data.header_start 4 = localFileHeaderSig then
      match data.data_start with
      | some ds => .ok (data, sliceL bytes ds data.compressed_size)
      | none =>
        if data.header_start + 30 ≤ bytes.length then
          let file_name_length := leVal bytes (data.header_start + 26) 2
          let extra_field_length := leVal bytes (data.header_start + 28) 2
          let ds := data.header_start + 30 + file_name_length + extra_field_length
          .ok ({ data with data_start := some ds }, sliceL bytes ds data.compressed_size)
        else .error .io
    else .error (.invalidArchive msg_invalid_local_header)
  else .error .io

/-- `ZipCryptoValidator` (zipcrypto.rs is outside src/; the two validator
variants are fixed by `make_crypto_reader`). -/
inductive ZipCryptoValidator where
  | infoZipMsdosTime : Nat → ZipCryptoValidator
  | pkzipCrc32 : Nat → ZipCryptoValidator
deriving DecidableEq, Repr

/-- `CryptoReader` under the cfg modelled here (no `aes-crypto` feature):
the plaintext identity layer, or a ZipCrypto-validated layer.  Modelled
from the spec (§4.F): zipcrypto.rs is outside src/, so the validated reader
is represented structurally (content, password, validator) and the
validation outcome itself is elided. -/
inductive CryptoReader where
  | plaintext : List Nat → CryptoReader
  | zipCrypto : List Nat → List Nat → ZipCryptoValidator → CryptoReader
deriving DecidableEq, Repr

/-- The compression-method ids `CompressionMethod::from_u16` maps to known
variants (spec §6); every other id is `Unsupported(id)`. -/
def supported_methods : List Nat := [0, 8, 9, 12, 14, 93, 99]

def is_unsupported_method (m : Nat) : Bool := ! supported_methods.contains m

/-- `make_crypto_reader` (compiled without the `aes-crypto` feature):
unsupported methods are rejected first; then the (password, aes) match of
the source.  The `(Some, None)` arm builds the ZipCrypto reader with the
validator chosen by `using_data_descriptor`. -/
def make_crypto_reader (compression_method crc32 last_mod_time : Nat)
    (using_data_descriptor : Bool) (content : List Nat)
    (password : Option (List Nat)) (aes : Option (AesMode × AesVendorVersion × Nat)) :
    Except ZipErr CryptoReader :=
  if is_unsupported_method compression_method then
    .error (.unsupportedArchive msg_method_unsupported)
  else
    match password, aes with
    | some _, some _ => .error (.unsupportedArchive msg_aes_needs_feature)
    | some pw, none =>
      let validator := if using_data_descriptor then
          ZipCryptoValidator.infoZipMsdosTime last_mod_time
        else ZipCryptoValidator.pkzipCrc32 crc32
      .ok (.zipCrypto content pw validator)
    | none, some _ => .error .invalidPassword
    | none, none => .ok (.plaintext content)

/-- `ZipFile` as returned by `by_index_with_optional_password`: the (possibly
`data_start`-updated) descriptor and the constructed crypto reader (the
`ZipFileReader` starts as `NoReader`). -/
structure ZipFileHandle where
  data : ZipFileData
  crypto_reader : Option CryptoReader
deriving DecidableEq, Repr

/-- `ZipArchive::by_index_with_optional_password`. -/
def by_index_with_optional_password (a : ZipArchiveData) (file_number : Nat)
    (password : Option (List Nat)) : Except ZipErr ZipFileHandle :=
  match a.files.get? file_number with
  | none => .error .fileNotFound
  | some (_, data) =>
    match password, data.encrypted with
    | none, true => .error (.unsupportedArchive msg_password_required)
    | p, enc =>
      let pw := if enc then p else none
      match find_content data a.bytes with
      | .error e => .error e
      | .ok (d, content) =>
        match make_crypto_reader data.compression_method data.crc32
            data.last_mod_time data.using_data_descriptor content pw data.aes_mode with
        | .error e => .error e
        | .ok cr => .ok { data := d, crypto_reader := some cr }

/-- `ZipArchive::by_index`. -/
def by_index (a : ZipArchiveData) (file_number : Nat) : Except ZipErr ZipFileHandle :=
  by_index_with_optional_password a file_number none

/-- `ZipArchive::by_index_decrypt`. -/
def by_index_decrypt (a : ZipArchiveData) (file_number : Nat) (password : List Nat) :
    Except ZipErr ZipFileHandle :=
  by_index_with_optional_password a file_number (some password)

/-- `ZipArchive::by_name_with_optional_password`:
`files.get_index_of(name)` then delegate by index. -/
def by_name_with_optional_password (a : ZipArchiveData) (name : List Nat)
    (password : Option (List Nat)) : Except ZipErr ZipFileHandle :=
  match a.files.findIdx? (fun kv => kv.1 == name) with
  | none => .error .fileNotFound
  | some i => by_index_with_optional_password a i password

/-- Per-entry rewrite of `merge_contents`: `checked_add` the writer start
onto `header_start`, clear the `central_header_start` cache, and
`checked_add` the writer start onto an initialized `data_start`. -/
def merge_transform_entry (w_start : Nat) (f : ZipFileData) : Except ZipErr ZipFileData :=
  if 2 ^ 64 ≤ f.header_start + w_start then
    .error (.invalidArchive msg_merge_header_overflow)
  else
    match f.data_start with
    | none => .ok { f with header_start := f.header_start + w_start,
                           central_header_start := 0 }
    | some d =>
      if 2 ^ 64 ≤ d + w_start then .error (.invalidArchive msg_merge_data_overflow)
      else .ok { f with header_start := f.header_start + w_start,
                        central_header_start := 0,
                        data_start := some (d + w_start) }

/-- The `try_for_each` of `merge_contents` over the cloned map: rewrite
every value in order, aborting at the first failure. -/
def merge_map_files (w_start : Nat) : List (List Nat × ZipFileData) →
    Except ZipErr (List (List Nat × ZipFileData))
  | [] => .ok []
  | (k, f) :: rest =>
    match merge_transform_entry w_start f with
    | .error e => .error e
    | .ok f2 =>
      match merge_map_files w_start rest with
      | .error e => .error e
      | .ok rest2 => .ok ((k, f2) :: rest2)

/-- `ZipArchive::merge_contents`: an empty archive contributes nothing;
otherwise rewrite the cloned descriptors against the writer position, then
rewind the source and copy `[0, dir_start)` into the writer.  The writer is
the byte list written so far, positioned at its end, so
`stream_position = w.length`; the copy appends `take dir_start` of the
source.  Returns the rewritten map and the new writer contents. -/
def merge_contents (a : ZipArchiveData) (w : List Nat) :
    Except ZipErr (List (List Nat × ZipFileData) × List Nat) :=
  if a.files.isEmpty then .ok ([], w)
  else
    match merge_map_files w.length a.files with
    | .error e => .error e
    | .ok nf => .ok (nf, w ++ sliceL a.bytes 0 a.dir_start)

instance {ε α : Type} [DecidableEq ε] [DecidableEq α] : DecidableEq (Except ε α) :=
  fun x y =>
    match x, y with
    | .ok a, .ok b =>
      if h : a = b then .isTrue (congrArg Except.ok h)
      else .isFalse (fun hh => h (Except.ok.inj hh))
    | .error a, .error b =>
      if h : a = b then .isTrue (congrArg Except.error h)
      else .isFalse (fun hh => h (Except.error.inj hh))
    | .ok _, .error _ => .isFalse (fun hh => Except.noConfusion hh)
    | .error _, .ok _ => .isFalse (fun hh => Except.noConfusion hh)

/-! Concrete inputs used to instantiate the theorems below. -/

/-- A 47-byte central directory entry for a file named `a` (all other
fields zero, version_made_by 0, name length 1, extra length 0). -/
def centralEntryA : List Nat :=
  u32le centralDirectoryHeaderSig ++ u16le 0 ++ u16le 0 ++ u16le 0 ++ u16le 0 ++
    u16le 0 ++ u16le 0 ++ u32le 0 ++ u32le 0 ++ u32le 0 ++ u16le 1 ++ u16le 0 ++
    u16le 0 ++ u16le 0 ++ u16le 0 ++ u32le 0 ++ u32le 0 ++ [97]

/-- EOCD declaring two entries, directory size 94, offset 0. -/
def eocd1 : List Nat :=
  u32le centralDirectoryEndSig ++ u16le 0 ++ u16le 0 ++ u16le 2 ++ u16le 2 ++
    u32le 94 ++ u32le 0 ++ u16le 0

/-- A 116-byte archive whose central directory holds two entries with the
same name `a`. -/
def arch1 : List Nat := centralEntryA ++ centralEntryA ++ eocd1

/-- The parsed EOCD of `arch1` (at position 94). -/
def footer1 : Zip32CentralDirectoryEnd :=
  { disk_number := 0, disk_with_central_directory := 0,
    number_of_files_on_this_disk := 2, number_of_files := 2,
    central_directory_size := 94, central_directory_offset := 0,
    zip_file_comment := [] }

/-- The fallback empty archive value (only used to totalise fixture
projections out of `Except`). -/
def emptyArchive : ZipArchiveData :=
  { bytes := [], files := [], offset := 0, dir_start := 0, comment := [] }

/-- The archive value `ZipArchive::new` produces on `arch1`. -/
def arch1Res : ZipArchiveData :=
  match zip_archive_new arch1 with
  | .ok a => a
  | .error _ => emptyArchive

/-- The `Shared` value `get_metadata` produces on `arch1`. -/
def s1 : Shared :=
  match get_metadata arch1 footer1 94 with
  | .ok s => s
  | .error _ => { files := [], offset := 0, dir_start := 0 }

/-- A bare 22-byte EOCD declaring directory size 1 at offset 0: the size
check fails and every recovery path errors. -/
def arch2 : List Nat :=
  u32le centralDirectoryEndSig ++ u16le 0 ++ u16le 0 ++ u16le 0 ++ u16le 0 ++
    u32le 1 ++ u32le 0 ++ u16le 0

/-- The parsed EOCD of `arch2` (at position 0). -/
def footer2 : Zip32CentralDirectoryEnd :=
  { disk_number := 0, disk_with_central_directory := 0,
    number_of_files_on_this_disk := 0, number_of_files := 0,
    central_directory_size := 1, central_directory_offset := 0,
    zip_file_comment := [] }

/-- 82-byte archive: 40 zero bytes, a ZIP64 locator with nominal offset 60,
and an EOCD at position 60 with directory size 1 and offset 60.  The size
check fails, and the ZIP64 window search has `nominal = 60` above
`search_upper_bound = 0`, so its first window has `end < window_start`. -/
def arch4 : List Nat :=
  List.replicate 40 0 ++
    (u32le zip64LocatorSig ++ u32le 0 ++ u64le 60 ++ u32le 0) ++
    (u32le centralDirectoryEndSig ++ u16le 0 ++ u16le 0 ++ u16le 0 ++ u16le 0 ++
      u32le 1 ++ u32le 60 ++ u16le 0)

/-- The parsed EOCD of `arch4` (at position 60). -/
def footer4 : Zip32CentralDirectoryEnd :=
  { disk_number := 0, disk_with_central_directory := 0,
    number_of_files_on_this_disk := 0, number_of_files := 0,
    central_directory_size := 1, central_directory_offset := 60,
    zip_file_comment := [] }

/-- A 56-byte ZIP64 EOCD record: versions 45/45, no files, directory
offset 79. -/
def zip64eocd3 : List Nat :=
  u32le zip64CentralDirectoryEndSig ++ u64le 44 ++ u16le 45 ++ u16le 45 ++
    u32le 0 ++ u32le 0 ++ u64le 0 ++ u64le 0 ++ u64le 0 ++ u64le 79

/-- 102-byte archive: the ZIP64 EOCD above at position 0, padding, a ZIP64
locator with nominal offset 0, and a ZIP32 EOCD at position 80.  The ZIP64
candidate's directory offset 79 is below `cde_start_pos = 80` but above
`search_upper_bound = 20`. -/
def arch3 : List Nat :=
  zip64eocd3 ++ [0, 0, 0, 0] ++
    (u32le zip64LocatorSig ++ u32le 0 ++ u64le 0 ++ u32le 0) ++
    (u32le centralDirectoryEndSig ++ u16le 0 ++ u16le 0 ++ u16le 0 ++ u16le 0 ++
      u32le 0 ++ u32le 0 ++ u16le 0)

/-- The parsed ZIP32 EOCD of `arch3` (at position 80). -/
def footer3 : Zip32CentralDirectoryEnd :=
  { disk_number := 0, disk_with_central_directory := 0,
    number_of_files_on_this_disk := 0, number_of_files := 0,
    central_directory_size := 0, central_directory_offset := 0,
    zip_file_comment := [] }

/-- The parsed ZIP64 EOCD record of `arch3`. -/
def z64rec3 : Zip64CentralDirectoryEnd :=
  { version_made_by := 45, version_needed_to_extract := 45,
    disk_number := 0, disk_with_central_directory := 0,
    number_of_files_on_this_disk := 0, number_of_files := 0,
    central_directory_size := 0, central_directory_offset := 79 }

/-- What `get_directory_info_zip64` returns on `arch3`. -/
def results3 : List (Except ZipErr CentralDirectoryInfo) :=
  [.error (.invalidArchive msg_invalid_cd_size_offset)]

/-- An AES extra field: kind `0x9901`, length 7, AE-1, vendor `AE`,
strength 1 (AES-128), real method 0. -/
def aesExtraBytes : List Nat := [1, 153, 7, 0, 1, 0, 65, 69, 1, 0, 0]

/-- A 58-byte central entry for `a`, compression method 99 (AES) with the
AES extra field, but without the encrypted flag. -/
def chBytesAes : List Nat :=
  u32le centralDirectoryHeaderSig ++ u16le 0 ++ u16le 0 ++ u16le 0 ++ u16le 99 ++
    u16le 0 ++ u16le 0 ++ u32le 0 ++ u32le 0 ++ u32le 0 ++ u16le 1 ++ u16le 11 ++
    u16le 0 ++ u16le 0 ++ u16le 0 ++ u32le 0 ++ u32le 0 ++ [97] ++ aesExtraBytes

/-- A minimal 30-byte local file header (empty name and extra). -/
def localHeaderBytes : List Nat :=
  u32le localFileHeaderSig ++ List.replicate 22 0 ++ u16le 0 ++ u16le 0

/-- The descriptor `central_header_to_zip_file` produces on `chBytesAes`:
`aes_mode` set, `encrypted` false. -/
def dAes : ZipFileData :=
  { system := 0, version_made_by := 0, encrypted := false,
    using_data_descriptor := false, compression_method := 0,
    last_mod_time := 0, last_mod_date := 0, crc32 := 0, compressed_size := 0,
    uncompressed_size := 0, file_name := [97], file_name_raw := [97],
    extra_field := some aesExtraBytes, central_extra_field := none,
    file_comment := [], header_start := 0, extra_data_start := none,
    central_header_start := 0, data_start := none, external_attributes := 0,
    large_file := false, aes_mode := some (AesMode.aes128, AesVendorVersion.ae1, 0),
    aes_extra_data_start := 0, extra_fields := [] }

/-- An archive made of `localHeaderBytes` whose single descriptor is
`dAes`. -/
def archAes : ZipArchiveData :=
  { bytes := localHeaderBytes, files := [([97], dAes)], offset := 0,
    dir_start := 0, comment := [] }

/-- A plain unencrypted descriptor for `a` over `localHeaderBytes`. -/
def dPlain : ZipFileData :=
  { system := 0, version_made_by := 0, encrypted := false,
    using_data_descriptor := false, compression_method := 0,
    last_mod_time := 0, last_mod_date := 0, crc32 := 0, compressed_size := 0,
    uncompressed_size := 0, file_name := [97], file_name_raw := [97],
    extra_field := none, central_extra_field := none,
    file_comment := [], header_start := 0, extra_data_start := none,
    central_header_start := 0, data_start := none, external_attributes := 0,
    large_file := false, aes_mode := none,
    aes_extra_data_start := 0, extra_fields := [] }

/-- `dPlain` after `find_content` stored its `data_start`. -/
def dPlainDS : ZipFileData := { dPlain with data_start := some 30 }

/-- `dPlain` with the encrypted flag set. -/
def dEnc : ZipFileData := { dPlain with encrypted := true }

/-- Archive with the single unencrypted entry `dPlain`. -/
def archPlain : ZipArchiveData :=
  { bytes := localHeaderBytes, files := [([97], dPlain)], offset := 0,
    dir_start := 0, comment := [] }

/-- Archive with the single encrypted entry `dEnc`. -/
def archEnc : ZipArchiveData :=
  { bytes := localHeaderBytes, files := [([97], dEnc)], offset := 0,
    dir_start := 0, comment := [] }

/-- A 3-byte archive with `dir_start = 2` for exercising
`merge_contents`. -/
def archMerge : ZipArchiveData :=
  { bytes := [9, 8, 7], files := [([97], dPlain)], offset := 0,
    dir_start := 2, comment := [] }

/-- The writer contents `merge_contents` is applied to. -/
def wMerge : List Nat := [1, 2]

/-- First ZIP64 extra chunk (uncompressed size). -/
def c6p1 : List Nat := [1, 2, 3, 4, 5, 6, 7, 8]

/-- Second ZIP64 extra chunk (compressed size). -/
def c6p2 : List Nat := [9, 10, 11, 12, 13, 14, 15, 16]

/-- Third ZIP64 extra chunk (header start). -/
def c6p3 : List Nat := [17, 18, 19, 20, 21, 22, 23, 24]

/-- A descriptor with all three ZIP64 sentinel fields set and a well-formed
24-byte ZIP64 extra field. -/
def c6f : ZipFileData :=
  { dPlain with compressed_size := 4294967295, uncompressed_size := 4294967295,
                header_start := 4294967295,
                extra_field := some ([1, 0, 24, 0] ++ (c6p1 ++ (c6p2 ++ c6p3))) }


/-! Utility lemmas. -/

theorem leVal_append (l1 l2 : List Nat) (i n : Nat) :
    leVal (l1 ++ l2) (l1.length + i) n = leVal l2 i n := by
  induction n generalizing i with
  | zero => rfl
  | succ m ih =>
    unfold leVal
    rw [List.getD_append_right]
    · rw [show l1.length + i - l1.length = i from by omega,
        show l1.length + i + 1 = l1.length + (i + 1) from by omega, ih]
    · omega

theorem readLE_append (l1 l2 : List Nat) (i n : Nat) :
    readLE (l1 ++ l2) (l1.length + i) n = readLE l2 i n := by
  unfold readLE
  rw [List.length_append, leVal_append]
  by_cases h : i + n ≤ l2.length
  · rw [if_pos h, if_pos (by omega)]
  · rw [if_neg h, if_neg (by omega)]

theorem sliceL_length_le (bytes : List Nat) (pos n : Nat) :
    (sliceL bytes pos n).length ≤ n := by
  unfold sliceL
  simp [List.length_take]

/-- A `find_content` call on a descriptor whose `data_start` cell is already
set: nothing is read beyond the local magic, the stored value is reused. -/
theorem find_content_of_some (data : ZipFileData) (bytes : List Nat) (ds : Nat)
    (hds : data.data_start = some ds)
    (h4 : data.header_start + 4 ≤ bytes.length)
    (hsig : leVal bytes data.header_start 4 = localFileHeaderSig) :
    find_content data bytes = .ok (data, sliceL bytes ds data.compressed_size) := by
  unfold find_content
  rw [if_pos h4, if_pos hsig, hds]

/-- Claim C8: `data_start` is a one-shot cell maintained by `find_content`:
a successful call returns the descriptor unchanged except that `data_start`
is set — reusing a previously stored value unchanged, and otherwise storing
`header_start + 30 + file_name_length + extra_field_length` with the two
length words read from the local header — together with the content of the
`take(compressed_size)` view starting at `data_start` (at most
`compressed_size` bytes); a later `find_content` on the returned descriptor
reuses the stored value and returns the same view (first writer wins). -/
theorem c8_data_start_once (data : ZipFileData) (bytes : List Nat)
    (d : ZipFileData) (v : List Nat)
    (h : find_content data bytes = .ok (d, v)) :
    ∃ ds, d = { data with data_start := some ds } ∧
      (data.data_start = some ds ∨
        (data.data_start = none ∧
          ds = data.header_start + 30 + leVal bytes (data.header_start + 26) 2 +
            leVal bytes (data.header_start + 28) 2)) ∧
      v = sliceL bytes ds data.compressed_size ∧
      v.length ≤ data.compressed_size ∧
      find_content d bytes = .ok (d, v) := by
  unfold find_content at h
  by_cases h4 : data.header_start + 4 ≤ bytes.length
  case neg => rw [if_neg h4] at h; simp at h
  rw [if_pos h4] at h
  by_cases hsig : leVal bytes data.header_start 4 = localFileHeaderSig
  case neg => rw [if_neg hsig] at h; simp at h
  rw [if_pos hsig] at h
  cases hds : data.data_start with
  | some ds0 =>
    rw [hds] at h
    injection h with h'
    injection h' with h1 h2
    subst h1
    subst h2
    refine ⟨ds0, ?_, Or.inl rfl, rfl, sliceL_length_le _ _ _, ?_⟩
    · rw [← hds]
    · exact find_content_of_some data bytes ds0 hds h4 hsig
  | none =>
    rw [hds] at h
    by_cases h30 : data.header_start + 30 ≤ bytes.length
    case neg => rw [if_neg h30] at h; simp at h
    rw [if_pos h30] at h
    injection h with h'
    injection h' with h1 h2
    subst h2
    refine ⟨data.header_start + 30 + leVal bytes (data.header_start + 26) 2 +
      leVal bytes (data.header_start + 28) 2, h1.symm, Or.inr ⟨rfl, rfl⟩, rfl,
      sliceL_length_le _ _ _, ?_⟩
    rw [← h1]
    exact find_content_of_some _ bytes _ rfl h4 hsig

theorem indexInsert_length_le (l : List (List Nat × ZipFileData)) (k : List Nat)
    (v : ZipFileData) : (indexInsert l k v).length ≤ l.length + 1 := by
  induction l with
  | nil => simp [indexInsert]
  | cons kv t ih =>
    obtain ⟨k0, v0⟩ := kv
    unfold indexInsert
    by_cases h : k = k0
    · rw [if_pos h]; simp
    · rw [if_neg h]; simp only [List.length_cons]; omega

theorem parse_directory_entries_length (bytes : List Nat) (aoff : Nat) :
    ∀ (n pos : Nat) (acc files : List (List Nat × ZipFileData)),
      parse_directory_entries bytes aoff n pos acc = .ok files →
      files.length ≤ acc.length + n := by
  intro n
  induction n with
  | zero =>
    intro pos acc files h
    unfold parse_directory_entries at h
    injection h with h'
    subst h'
    omega
  | succ m ih =>
    intro pos acc files h
    unfold parse_directory_entries at h
    cases hc : central_header_to_zip_file bytes aoff pos with
    | error e => rw [hc] at h; exact Except.noConfusion h
    | ok dp =>
      obtain ⟨d, pos2⟩ := dp
      rw [hc] at h
      have h1 := ih pos2 (indexInsert acc d.file_name d) files h
      have h2 := indexInsert_length_le acc d.file_name d
      omega

theorem mem_ok_results (l : List (Except ZipErr Shared)) (s : Shared) :
    s ∈ ok_results l ↔ .ok s ∈ l := by
  unfold ok_results
  rw [List.mem_filterMap]
  constructor
  · rintro ⟨r, hr, hfr⟩
    cases r with
    | ok s2 => simp at hfr; subst hfr; exact hr
    | error e => simp at hfr
  · intro hmem
    exact ⟨.ok s, hmem, rfl⟩

theorem select_max_mem (s : Shared) (l : List Shared) :
    select_max_dir_start s l ∈ s :: l := by
  induction l generalizing s with
  | nil => simp [select_max_dir_start]
  | cons x t ih =>
    unfold select_max_dir_start
    by_cases h : s.dir_start ≤ x.dir_start
    · rw [if_pos h]
      have := ih x
      simp only [List.mem_cons] at this ⊢
      tauto
    · rw [if_neg h]
      have := ih s
      simp only [List.mem_cons] at this ⊢
      tauto

theorem select_max_ge (s : Shared) (l : List Shared) :
    ∀ x ∈ s :: l, x.dir_start ≤ (select_max_dir_start s l).dir_start := by
  induction l generalizing s with
  | nil =>
    intro x hx
    simp only [List.mem_cons, List.not_mem_nil, or_false] at hx
    subst hx
    simp [select_max_dir_start]
  | cons y t ih =>
    intro x hx
    unfold select_max_dir_start
    simp only [List.mem_cons] at hx
    by_cases h : s.dir_start ≤ y.dir_start
    · rw [if_pos h]
      rcases hx with h1 | h2 | h3
      · rw [h1]; exact le_trans h (ih y y (by simp))
      · rw [h2]; exact ih y y (by simp)
      · exact ih y x (by simp [h3])
    · rw [if_neg h]
      rcases hx with h1 | h2 | h3
      · rw [h1]; exact ih s s (by simp)
      · rw [h2]; exact le_trans (by omega) (ih s s (by simp))
      · exact ih s x (by simp [h3])

theorem get_metadata_ok (bytes : List Nat) (footer : Zip32CentralDirectoryEnd)
    (cde : Nat) (sh : Shared) (h : get_metadata bytes footer cde = .ok sh) :
    sh ∈ ok_results (parsed_results bytes footer cde) ∧
      ∀ t ∈ ok_results (parsed_results bytes footer cde), t.dir_start ≤ sh.dir_start := by
  unfold get_metadata at h
  split at h
  · split at h
    · exact Except.noConfusion h
    · split at h
      · exact Except.noConfusion h
      · exact Except.noConfusion h
  · rename_i s rest ho
    injection h with h'
    rw [ho]
    constructor
    · rw [← h']; exact select_max_mem s rest
    · intro t ht
      rw [← h']
      exact select_max_ge s rest t ht

theorem parse_candidate_ok (bytes : List Nat) (info : CentralDirectoryInfo) (sh : Shared)
    (h : parse_candidate bytes info = .ok sh) :
    sh.files.length ≤ info.number_of_files ∧ sh.offset = info.archive_offset ∧
      sh.dir_start = info.directory_start := by
  unfold parse_candidate at h
  split at h
  · exact Except.noConfusion h
  · rename_i files hp
    split at h
    · exact Except.noConfusion h
    · injection h with h'
      subst h'
      refine ⟨?_, rfl, rfl⟩
      have := parse_directory_entries_length bytes info.archive_offset
        info.number_of_files info.directory_start [] files hp
      simpa using this

theorem parsed_ok_candidate (bytes : List Nat) (footer : Zip32CentralDirectoryEnd)
    (cde : Nat) (sh : Shared) (h : .ok sh ∈ parsed_results bytes footer cde) :
    ∃ info, .ok info ∈ candidate_results bytes footer cde ∧
      parse_candidate bytes info = .ok sh := by
  unfold parsed_results at h
  obtain ⟨r, hr, hfr⟩ := List.mem_map.mp h
  cases r with
  | error e => simp at hfr
  | ok info => exact ⟨info, hr, hfr⟩

/-- Claim C1 (amended): for every archive that `ZipArchive::new` parses, the
returned file table is the parse of a winning candidate and `len()` is at
most the file count declared by that candidate's EOCD view — equality can
fail because entries with duplicate names collapse in the
insertion-ordered map. -/
theorem c1_len_le_declared (bytes : List Nat) (A : ZipArchiveData)
    (h : zip_archive_new bytes = .ok A) :
    ∃ footer cde info,
      Zip32CentralDirectoryEnd.find_and_parse bytes = .ok (footer, cde) ∧
      .ok info ∈ candidate_results bytes footer cde ∧
      parse_candidate bytes info =
        .ok { files := A.files, offset := A.offset, dir_start := A.dir_start } ∧
      A.len ≤ info.number_of_files := by
  unfold zip_archive_new at h
  split at h
  · exact Except.noConfusion h
  · rename_i footer cde hf
    split at h
    · exact Except.noConfusion h
    · rename_i sh hm
      injection h with h'
      subst h'
      obtain ⟨hmem, _⟩ := get_metadata_ok bytes footer cde sh hm
      have hok := (mem_ok_results _ sh).mp hmem
      obtain ⟨info, hinfo, hpc⟩ := parsed_ok_candidate bytes footer cde sh hok
      have hlen := (parse_candidate_ok bytes info sh hpc).1
      exact ⟨footer, cde, info, hf, hinfo, hpc, hlen⟩

/-- Claim C4: when `get_metadata` succeeds, the returned `Shared` is one of
the successfully parsed candidates and its `dir_start` is maximal among
them (so with more than one parsed candidate, the largest `dir_start`
wins). -/
theorem c4_largest_dir_start (bytes : List Nat) (footer : Zip32CentralDirectoryEnd)
    (cde : Nat) (s : Shared) (h : get_metadata bytes footer cde = .ok s) :
    s ∈ ok_results (parsed_results bytes footer cde) ∧
      ∀ t ∈ ok_results (parsed_results bytes footer cde), t.dir_start ≤ s.dir_start :=
  get_metadata_ok bytes footer cde s h

theorem head_filter_eq_find (p : ZipErr → Bool) (l : List ZipErr) :
    (l.filter p).head? = l.find? p := by
  induction l with
  | nil => rfl
  | cons x t ih =>
    by_cases h : p x
    · simp [List.filter_cons, h]
    · simp [List.filter_cons, h, ih]

/-- Claim C5: when no candidate's central directory parses, `get_metadata`
returns the first `UnsupportedArchive` among the candidates' failures if
one exists, and otherwise the first remaining (`InvalidArchive`/other)
failure. -/
theorem c5_error_aggregation (bytes : List Nat) (footer : Zip32CentralDirectoryEnd)
    (cde : Nat) (h : ok_results (parsed_results bytes footer cde) = []) :
    ∃ e, get_metadata bytes footer cde = .error e ∧
      ((errors_of (parsed_results bytes footer cde)).find? is_unsupported = some e ∨
        ((errors_of (parsed_results bytes footer cde)).find? is_unsupported = none ∧
          (errors_of (parsed_results bytes footer cde)).head? = some e)) := by
  have hg : get_metadata bytes footer cde =
      match (errors_of (parsed_results bytes footer cde)).filter is_unsupported with
      | e :: _ => .error e
      | [] =>
        match (errors_of (parsed_results bytes footer cde)).filter
            (fun e => ! is_unsupported e) with
        | e :: _ => .error e
        | [] => .error (.panicked msg_panic_unwrap) := by
    unfold get_metadata
    rw [h]
  cases hu : (errors_of (parsed_results bytes footer cde)).filter is_unsupported with
  | cons e t =>
    refine ⟨e, ?_, Or.inl ?_⟩
    · rw [hg, hu]
    · rw [← head_filter_eq_find, hu]
      rfl
  | nil =>
    have hfind : (errors_of (parsed_results bytes footer cde)).find? is_unsupported = none := by
      rw [← head_filter_eq_find, hu]
      rfl
    have hall := List.filter_eq_nil_iff.mp hu
    have hself : (errors_of (parsed_results bytes footer cde)).filter
        (fun e => ! is_unsupported e) = errors_of (parsed_results bytes footer cde) := by
      rw [List.filter_eq_self]
      intro a ha
      simp [hall a ha]
    cases he : errors_of (parsed_results bytes footer cde) with
    | cons e t =>
      refine ⟨e, ?_, Or.inr ⟨he ▸ hfind, rfl⟩⟩
      rw [hg, hu, hself, he]
    | nil =>
      exfalso
      have hne : parsed_results bytes footer cde ≠ [] := by
        unfold parsed_results
        intro hcontra
        have hlen := congrArg List.length hcontra
        simp [candidate_results] at hlen
      obtain ⟨x, hx⟩ := List.exists_mem_of_ne_nil _ hne
      cases x with
      | ok s =>
        have hmem := (mem_ok_results _ s).mpr hx
        rw [h] at hmem
        simp at hmem
      | error e =>
        have hmem : e ∈ errors_of (parsed_results bytes footer cde) :=
          List.mem_filterMap.mpr ⟨.error e, hx, rfl⟩
        rw [he] at hmem
        simp at hmem

/-- Errors that the central-directory location path can produce when no
candidate survives: `Io`, `InvalidArchive`, or a modelled panic — never
`UnsupportedArchive`, `InvalidPassword` or `FileNotFound`. -/
def plain_error (e : ZipErr) : Prop :=
  e = .io ∨ (∃ m, e = .invalidArchive m) ∨ (∃ m, e = .panicked m)

theorem zip64_parse_plain (bytes : List Nat) (p : Nat) (e : ZipErr)
    (h : Zip64CentralDirectoryEnd.parse bytes p = .error e) : plain_error e := by
  unfold Zip64CentralDirectoryEnd.parse at h
  split at h
  · split at h
    · exact Except.noConfusion h
    · injection h with h'; exact Or.inr (Or.inl ⟨_, h'.symm⟩)
  · injection h with h'; exact Or.inl h'.symm

theorem zip64_locator_parse_plain (bytes : List Nat) (p : Nat) (e : ZipErr)
    (h : Zip64CentralDirectoryEndLocator.parse bytes p = .error e) : plain_error e := by
  unfold Zip64CentralDirectoryEndLocator.parse at h
  split at h
  · split at h
    · exact Except.noConfusion h
    · injection h with h'; exact Or.inr (Or.inl ⟨_, h'.symm⟩)
  · injection h with h'; exact Or.inl h'.symm

theorem collect64_plain (bytes : List Nat) (nominal : Nat) :
    ∀ (l : List Nat) (e : ZipErr),
      collectCandidates64 bytes nominal l = .error e → plain_error e := by
  intro l
  induction l with
  | nil => intro e h; exact Except.noConfusion h
  | cons p rest ih =>
    intro e h
    unfold collectCandidates64 at h
    split at h
    · rename_i e1 heq
      injection h with h'
      exact h' ▸ zip64_parse_plain bytes p e1 heq
    · split at h
      · rename_i e2 heq2
        injection h with h'
        exact h' ▸ ih e2 heq2
      · exact Except.noConfusion h

theorem zip64Finish_plain (acc : List (Zip64CentralDirectoryEnd × Nat)) (e : ZipErr)
    (h : zip64Finish acc = .error e) : plain_error e := by
  unfold zip64Finish at h
  split at h
  · injection h with h'; exact Or.inr (Or.inl ⟨_, h'.symm⟩)
  · exact Except.noConfusion h

theorem readBytes_plain (bytes : List Nat) (pos n : Nat) (e : ZipErr)
    (h : readBytes bytes pos n = .error e) : plain_error e := by
  unfold readBytes at h
  split at h
  · exact Except.noConfusion h
  · injection h with h'; exact Or.inl h'.symm

theorem zip64SearchLoop_plain (bytes : List Nat) (nominal upper : Nat) :
    ∀ (fuel ws : Nat) (acc : List (Zip64CentralDirectoryEnd × Nat)) (e : ZipErr),
      zip64SearchLoop bytes nominal upper fuel ws acc = .error e → plain_error e := by
  intro fuel
  induction fuel with
  | zero => intro ws acc e h; exact zip64Finish_plain _ _ h
  | succ m ih =>
    intro ws acc e h
    unfold zip64SearchLoop at h
    split at h
    · injection h with h'; exact Or.inr (Or.inr ⟨_, h'.symm⟩)
    · split at h
      · exact zip64Finish_plain _ _ h
      · split at h
        · rename_i e1 heq
          injection h with h'
          exact h' ▸ readBytes_plain _ _ _ _ heq
        · split at h
          · rename_i e2 heq2
            injection h with h'
            exact h' ▸ collect64_plain _ _ _ _ heq2
          · split at h
            · exact zip64Finish_plain _ _ h
            · exact ih _ _ _ h

theorem zip64_find_and_parse_plain (bytes : List Nat) (nominal upper : Nat) (e : ZipErr)
    (h : Zip64CentralDirectoryEnd.find_and_parse bytes nominal upper = .error e) :
    plain_error e :=
  zip64SearchLoop_plain bytes nominal upper _ _ _ e h

theorem get_directory_info_zip64_plain (bytes : List Nat)
    (footer : Zip32CentralDirectoryEnd) (cde : Nat) (e : ZipErr)
    (h : get_directory_info_zip64 bytes footer cde = .error e) : plain_error e := by
  unfold get_directory_info_zip64 at h
  split at h
  · injection h with h'; exact Or.inl h'.symm
  · split at h
    · rename_i e1 heq
      injection h with h'
      exact h' ▸ zip64_locator_parse_plain _ _ _ heq
    · split at h
      · injection h with h'; exact Or.inr (Or.inl ⟨_, h'.symm⟩)
      · split at h
        · rename_i e2 heq2
          injection h with h'
          exact h' ▸ zip64_find_and_parse_plain _ _ _ _ heq2
        · exact Except.noConfusion h

theorem checkZip64Candidate_plain (upper : Nat) (c : Zip64CentralDirectoryEnd × Nat)
    (e : ZipErr) (h : checkZip64Candidate upper c = .error e) : plain_error e := by
  unfold checkZip64Candidate at h
  split at h
  · injection h with h'; exact Or.inr (Or.inl ⟨_, h'.symm⟩)
  · split at h
    · injection h with h'; exact Or.inr (Or.inl ⟨_, h'.symm⟩)
    · split at h
      · injection h with h'; exact Or.inr (Or.inl ⟨_, h'.symm⟩)
      · split at h
        · injection h with h'; exact Or.inr (Or.inl ⟨_, h'.symm⟩)
        · exact Except.noConfusion h

/-- Every failed entry of the ZIP64 candidate list carries an `Io`,
`InvalidArchive` or panic outcome. -/
theorem raw_zip64_results_plain (bytes : List Nat) (footer : Zip32CentralDirectoryEnd)
    (cde : Nat) (r : Except ZipErr CentralDirectoryInfo) (e : ZipErr)
    (hr : r ∈ raw_zip64_results bytes footer cde) (he : r = .error e) : plain_error e := by
  unfold raw_zip64_results at hr
  cases hg : get_directory_info_zip64 bytes footer cde with
  | error e0 =>
    rw [hg] at hr
    simp only [List.mem_singleton] at hr
    subst hr
    injection he with h'
    exact h' ▸ get_directory_info_zip64_plain bytes footer cde e0 hg
  | ok l =>
    rw [hg] at hr
    unfold get_directory_info_zip64 at hg
    split at hg
    · exact Except.noConfusion hg
    · split at hg
      · exact Except.noConfusion hg
      · split at hg
        · exact Except.noConfusion hg
        · split at hg
          · exact Except.noConfusion hg
          · rename_i cands heq
            injection hg with hg'
            subst hg'
            obtain ⟨c, _, hc⟩ := List.mem_map.mp hr
            subst he
            exact checkZip64Candidate_plain _ c e hc

theorem zip_archive_new_error_of (bytes : List Nat) (footer : Zip32CentralDirectoryEnd)
    (cde : Nat) (e : ZipErr)
    (hf : Zip32CentralDirectoryEnd.find_and_parse bytes = .ok (footer, cde))
    (hm : get_metadata bytes footer cde = .error e) :
    zip_archive_new bytes = .error e := by
  unfold zip_archive_new
  rw [hf]
  simp only [hm]

/-- Claim C2 (amended): when the winning ZIP32 EOCD declares
`offset + size > cde_start_pos` and the ZIP64 probe yields no valid
candidate, `ZipArchive::new` never succeeds, but the failure is not always
`InvalidArchive`: it is an `InvalidArchive` error, an `Io` error surfaced
from the ZIP64 probe (e.g. the negative `seek` before the locator), or —
when the locator parses with a nominal offset beyond `cde_start_pos − 60` —
a panic in the ZIP64 window search (`end < window_start` violates the
source's own debug assertion and aborts either way). -/
theorem c2_invalid_offset_errors (bytes : List Nat) (footer : Zip32CentralDirectoryEnd)
    (cde : Nat)
    (hf : Zip32CentralDirectoryEnd.find_and_parse bytes = .ok (footer, cde))
    (hoff : cde < footer.central_directory_size + footer.central_directory_offset)
    (hz64 : ∀ r ∈ raw_zip64_results bytes footer cde, ∃ e, r = .error e) :
    ∃ e, zip_archive_new bytes = .error e ∧ plain_error e := by
  have hz32 : get_directory_info_zip32 footer cde =
      .error (.invalidArchive msg_invalid_cd_size_offset) := by
    unfold get_directory_info_zip32
    rw [if_pos hoff]
  have cross_err : ∀ (z : Except ZipErr CentralDirectoryInfo) (e0 : ZipErr),
      cross_check_zip64 z (.error e0) = .error e0 := by
    intro z e0
    cases z <;> rfl
  have hparse : ∀ x ∈ parsed_results bytes footer cde,
      ∃ e0, x = .error e0 ∧ plain_error e0 := by
    intro x hx
    unfold parsed_results at hx
    obtain ⟨r, hr, hfr⟩ := List.mem_map.mp hx
    unfold candidate_results at hr
    rcases List.mem_append.mp hr with hL | hR
    · obtain ⟨r0, hr0, hcc⟩ := List.mem_map.mp hL
      obtain ⟨e0, he0⟩ := hz64 r0 hr0
      subst he0
      rw [cross_err _ e0] at hcc
      subst hcc
      exact ⟨e0, hfr.symm, raw_zip64_results_plain bytes footer cde _ e0 hr0 rfl⟩
    · simp only [List.mem_singleton] at hR
      subst hR
      rw [hz32] at hfr
      exact ⟨.invalidArchive msg_invalid_cd_size_offset, hfr.symm,
        Or.inr (Or.inl ⟨_, rfl⟩)⟩
  have hok : ok_results (parsed_results bytes footer cde) = [] := by
    apply List.filterMap_eq_nil_iff.mpr
    intro a ha
    obtain ⟨e0, he0, _⟩ := hparse a ha
    subst he0
    rfl
  have herrs : ∀ e0 ∈ errors_of (parsed_results bytes footer cde), plain_error e0 := by
    intro e0 he0
    obtain ⟨x, hx, hfx⟩ := List.mem_filterMap.mp he0
    obtain ⟨e1, he1, hpl⟩ := hparse x hx
    subst he1
    injection hfx with h
    exact h ▸ hpl
  obtain ⟨e, hge, hpe⟩ : ∃ e, get_metadata bytes footer cde = .error e ∧ plain_error e := by
    unfold get_metadata
    rw [hok]
    cases hu : (errors_of (parsed_results bytes footer cde)).filter is_unsupported with
    | cons e t =>
      refine ⟨e, ?_, herrs e (List.mem_of_mem_filter
        (by rw [hu]; exact List.mem_cons_self e t))⟩
      rfl
    | nil =>
      cases hi : (errors_of (parsed_results bytes footer cde)).filter
          (fun e => ! is_unsupported e) with
      | cons e t =>
        refine ⟨e, ?_, herrs e (List.mem_of_mem_filter
          (by rw [hi]; exact List.mem_cons_self e t))⟩
        rfl
      | nil =>
        exact ⟨.panicked msg_panic_unwrap, rfl, Or.inr (Or.inr ⟨_, rfl⟩)⟩
  exact ⟨e, zip_archive_new_error_of bytes footer cde e hf hge, hpe⟩

theorem checkZip64Candidate_spec (upper : Nat) (c : Zip64CentralDirectoryEnd × Nat) :
    ((∃ info, checkZip64Candidate upper c = .ok info) ↔
      (c.1.central_directory_offset + c.2 < 2 ^ 64 ∧
       c.1.central_directory_offset + c.2 ≤ upper ∧
       c.1.number_of_files_on_this_disk ≤ c.1.number_of_files ∧
       c.1.version_needed_to_extract ≤ c.1.version_made_by)) ∧
    (∀ info, checkZip64Candidate upper c = .ok info →
      info.archive_offset = c.2 ∧
      info.directory_start = c.1.central_directory_offset + c.2 ∧
      info.number_of_files = c.1.number_of_files) ∧
    (∀ e, checkZip64Candidate upper c = .error e → ∃ m, e = .invalidArchive m) := by
  unfold checkZip64Candidate
  by_cases h1 : 2 ^ 64 ≤ c.1.central_directory_offset + c.2
  · rw [if_pos h1]
    refine ⟨⟨?_, ?_⟩, ?_, ?_⟩
    · rintro ⟨info, hinfo⟩; exact Except.noConfusion hinfo
    · rintro ⟨ha, -⟩; omega
    · intro info hinfo; exact Except.noConfusion hinfo
    · intro e he; injection he with h'; exact ⟨_, h'.symm⟩
  · rw [if_neg h1]
    by_cases h2 : upper < c.1.central_directory_offset + c.2
    · rw [if_pos h2]
      refine ⟨⟨?_, ?_⟩, ?_, ?_⟩
      · rintro ⟨info, hinfo⟩; exact Except.noConfusion hinfo
      · rintro ⟨-, hb, -⟩; omega
      · intro info hinfo; exact Except.noConfusion hinfo
      · intro e he; injection he with h'; exact ⟨_, h'.symm⟩
    · rw [if_neg h2]
      by_cases h3 : c.1.number_of_files < c.1.number_of_files_on_this_disk
      · rw [if_pos h3]
        refine ⟨⟨?_, ?_⟩, ?_, ?_⟩
        · rintro ⟨info, hinfo⟩; exact Except.noConfusion hinfo
        · rintro ⟨-, -, hc, -⟩; omega
        · intro info hinfo; exact Except.noConfusion hinfo
        · intro e he; injection he with h'; exact ⟨_, h'.symm⟩
      · rw [if_neg h3]
        by_cases h4 : c.1.version_made_by < c.1.version_needed_to_extract
        · rw [if_pos h4]
          refine ⟨⟨?_, ?_⟩, ?_, ?_⟩
          · rintro ⟨info, hinfo⟩; exact Except.noConfusion hinfo
          · rintro ⟨-, -, -, hd⟩; omega
          · intro info hinfo; exact Except.noConfusion hinfo
          · intro e he; injection he with h'; exact ⟨_, h'.symm⟩
        · rw [if_neg h4]
          refine ⟨⟨?_, ?_⟩, ?_, ?_⟩
          · intro _; exact ⟨by omega, by omega, by omega, by omega⟩
          · intro _; exact ⟨_, rfl⟩
          · intro info hinfo
            injection hinfo with h'
            subst h'
            exact ⟨rfl, rfl, rfl⟩
          · intro e he; exact Except.noConfusion he

/-- Claim C3 (amended): for every ZIP64 candidate found by the search, the
reconciler computes `directory_start = central_directory_offset +
archive_offset` (`checked_add`; overflow is `InvalidArchive`) and rejects
the candidate with `InvalidArchive` when `directory_start` exceeds the
search upper bound `cde_start_pos − 60` — not `cde_start_pos` itself, as
the claim stated — or when `number_of_files_on_this_disk >
number_of_files`, or when `version_needed_to_extract > version_made_by`;
candidates failing none of these checks are kept. -/
theorem c3_zip64_candidate_checks (bytes : List Nat) (footer : Zip32CentralDirectoryEnd)
    (cde : Nat) (results : List (Except ZipErr CentralDirectoryInfo))
    (h : get_directory_info_zip64 bytes footer cde = .ok results) :
    60 ≤ cde ∧
    ∃ loc cands,
      Zip64CentralDirectoryEndLocator.parse bytes
          (bytes.length - (42 + footer.zip_file_comment.length)) = .ok loc ∧
      Zip64CentralDirectoryEnd.find_and_parse bytes
          loc.end_of_central_directory_offset (cde - 60) = .ok cands ∧
      results = cands.map (checkZip64Candidate (cde - 60)) ∧
      ∀ c ∈ cands,
        ((∃ info, checkZip64Candidate (cde - 60) c = .ok info) ↔
          (c.1.central_directory_offset + c.2 < 2 ^ 64 ∧
           c.1.central_directory_offset + c.2 ≤ cde - 60 ∧
           c.1.number_of_files_on_this_disk ≤ c.1.number_of_files ∧
           c.1.version_needed_to_extract ≤ c.1.version_made_by)) ∧
        (∀ info, checkZip64Candidate (cde - 60) c = .ok info →
          info.archive_offset = c.2 ∧
          info.directory_start = c.1.central_directory_offset + c.2 ∧
          info.number_of_files = c.1.number_of_files) ∧
        (∀ e, checkZip64Candidate (cde - 60) c = .error e →
          ∃ m, e = .invalidArchive m) := by
  unfold get_directory_info_zip64 at h
  split at h
  · exact Except.noConfusion h
  · split at h
    · exact Except.noConfusion h
    · rename_i loc hloc
      split at h
      · exact Except.noConfusion h
      · rename_i hcde
        split at h
        · exact Except.noConfusion h
        · rename_i cands hcands
          injection h with h'
          exact ⟨by omega, loc, cands, hloc, hcands, h'.symm,
            fun c _ => checkZip64Candidate_spec (cde - 60) c⟩

/-- Claim C7 (amended): through `by_index`/`by_name` (and the `_decrypt`
variants, all of which funnel into `by_index_with_optional_password`): an
encrypted entry with no password is `UnsupportedArchive` (password
required); an unencrypted entry discards a supplied password, behaving
exactly as the password-free call; and when the descriptor additionally
carries no AES information, the crypto layer is the plaintext identity
over the `find_content` view.  (A descriptor with `aes_mode` set but not
flagged encrypted instead fails with `InvalidPassword`; see the
counterexample.) -/
theorem c7_password_logic (a : ZipArchiveData) (i : Nat) (k : List Nat)
    (data : ZipFileData) (pw : List Nat)
    (hget : a.files.get? i = some (k, data)) :
    (data.encrypted = true →
      by_index_with_optional_password a i none =
        .error (.unsupportedArchive msg_password_required)) ∧
    (data.encrypted = false →
      by_index_with_optional_password a i (some pw) =
        by_index_with_optional_password a i none) ∧
    (data.encrypted = false → data.aes_mode = none →
      ∀ zf, by_index_with_optional_password a i none = .ok zf →
        ∃ d content, find_content data a.bytes = .ok (d, content) ∧
          zf.data = d ∧ zf.crypto_reader = some (.plaintext content)) := by
  refine ⟨?_, ?_, ?_⟩
  · intro hE
    simp only [by_index_with_optional_password, hget, hE]
  · intro hE
    simp only [by_index_with_optional_password, hget, hE]
    rfl
  · intro hE hA zf hok
    simp only [by_index_with_optional_password, hget, hE, hA] at hok
    split at hok
    · exact Except.noConfusion hok
    · rename_i d content hfc
      by_cases hm : is_unsupported_method data.compression_method = true
      · simp [make_crypto_reader, hm] at hok
      · simp only [Bool.not_eq_true] at hm
        simp only [make_crypto_reader, hm] at hok
        injection hok with h'
        exact ⟨d, content, hfc, by rw [← h'], by rw [← h']⟩

/-- The per-descriptor rewrite `merge_contents` performs: shift
`header_start` (and an initialized `data_start`) by the writer start and
clear the `central_header_start` cache; every other field is unchanged. -/
def merge_shift (p : Nat) (f : ZipFileData) : ZipFileData :=
  { f with header_start := f.header_start + p, central_header_start := 0,
           data_start := f.data_start.map (· + p) }

theorem merge_transform_entry_ok (p : Nat) (f f2 : ZipFileData)
    (h : merge_transform_entry p f = .ok f2) : f2 = merge_shift p f := by
  unfold merge_transform_entry at h
  split at h
  · exact Except.noConfusion h
  · split at h
    · rename_i heq
      injection h with h'
      subst h'
      unfold merge_shift
      simp [heq]
    · rename_i d heq
      split at h
      · exact Except.noConfusion h
      · injection h with h'
        subst h'
        unfold merge_shift
        simp [heq]

theorem merge_map_files_ok (p : Nat) :
    ∀ (l nf : List (List Nat × ZipFileData)), merge_map_files p l = .ok nf →
      nf.length = l.length ∧
      ∀ i k f, l.get? i = some (k, f) → nf.get? i = some (k, merge_shift p f) := by
  intro l
  induction l with
  | nil =>
    intro nf h
    injection h with h'
    subst h'
    refine ⟨rfl, ?_⟩
    intro i k f hif
    simp at hif
  | cons kf0 rest ih =>
    intro nf h
    obtain ⟨k0, f0⟩ := kf0
    unfold merge_map_files at h
    split at h
    · exact Except.noConfusion h
    · rename_i f2 htr
      split at h
      · exact Except.noConfusion h
      · rename_i rest2 hrest
        injection h with h'
        subst h'
        obtain ⟨hlen, hidx⟩ := ih rest2 hrest
        constructor
        · simp [hlen]
        · intro i k f hif
          cases i with
          | zero =>
            rw [List.get?_cons_zero] at hif
            injection hif with hkf
            injection hkf with hk hf
            subst hk
            subst hf
            rw [List.get?_cons_zero, merge_transform_entry_ok p f0 f2 htr]
          | succ n =>
            rw [List.get?_cons_succ] at hif
            rw [List.get?_cons_succ]
            exact hidx n k f hif

theorem merge_transform_entry_err (p : Nat) (f : ZipFileData) (e : ZipErr)
    (h : merge_transform_entry p f = .error e) : ∃ m, e = .invalidArchive m := by
  unfold merge_transform_entry at h
  split at h
  · injection h with h'; exact ⟨_, h'.symm⟩
  · split at h
    · exact Except.noConfusion h
    · split at h
      · injection h with h'; exact ⟨_, h'.symm⟩
      · exact Except.noConfusion h

theorem merge_map_files_err (p : Nat) :
    ∀ (l : List (List Nat × ZipFileData)),
      (∃ kf ∈ l, 2 ^ 64 ≤ kf.2.header_start + p ∨
        (∃ ds, kf.2.data_start = some ds ∧ 2 ^ 64 ≤ ds + p)) →
      ∃ m, merge_map_files p l = .error (.invalidArchive m) := by
  intro l
  induction l with
  | nil =>
    rintro ⟨kf, hkf, -⟩
    simp at hkf
  | cons kf0 rest ih =>
    rintro ⟨kf, hkf, hover⟩
    obtain ⟨k0, f0⟩ := kf0
    unfold merge_map_files
    rcases List.mem_cons.mp hkf with heq | hmem
    · subst heq
      unfold merge_transform_entry
      rcases hover with h1 | ⟨ds, hds, h2⟩
      · rw [if_pos h1]
        exact ⟨_, rfl⟩
      · by_cases h1 : 2 ^ 64 ≤ f0.header_start + p
        · rw [if_pos h1]
          exact ⟨_, rfl⟩
        · rw [if_neg h1]
          have hds2 : f0.data_start = some ds := hds
          simp only [hds2]
          rw [if_pos h2]
          exact ⟨_, rfl⟩
    · cases htr : merge_transform_entry p f0 with
      | error e =>
        obtain ⟨m, hm⟩ := merge_transform_entry_err p f0 e htr
        refine ⟨m, ?_⟩
        rw [hm]
      | ok f2 =>
        obtain ⟨m, hm⟩ := ih ⟨kf, hmem, hover⟩
        refine ⟨m, ?_⟩
        rw [hm]

/-- Claim C9: for a non-empty archive, `merge_contents` adds the writer's
starting position to every descriptor's `header_start` and (when set)
`data_start`, clears `central_header_start`, leaves every other field (and
the keys and their order) unchanged, and appends exactly the source bytes
`[0, dir_start)` to the writer; an overflowing addition instead returns
`InvalidArchive` before anything is copied. -/
theorem c9_merge_contents (a : ZipArchiveData) (w : List Nat) (hne : a.files ≠ []) :
    (∀ nf w2, merge_contents a w = .ok (nf, w2) →
      w2 = w ++ sliceL a.bytes 0 a.dir_start ∧
      nf.length = a.files.length ∧
      ∀ i k f, a.files.get? i = some (k, f) →
        nf.get? i = some (k, merge_shift w.length f)) ∧
    ((∃ kf ∈ a.files, 2 ^ 64 ≤ kf.2.header_start + w.length ∨
        (∃ ds, kf.2.data_start = some ds ∧ 2 ^ 64 ≤ ds + w.length)) →
      ∃ m, merge_contents a w = .error (.invalidArchive m)) := by
  have hemp : a.files.isEmpty = false := by
    cases hc : a.files with
    | nil => exact absurd hc hne
    | cons x t => rfl
  constructor
  · intro nf w2 h
    unfold merge_contents at h
    split at h
    · rename_i htrue
      rw [hemp] at htrue
      exact Bool.noConfusion htrue
    · split at h
      · exact Except.noConfusion h
      · rename_i nf0 hmf
        injection h with h'
        injection h' with h1 h2
        subst h1
        subst h2
        obtain ⟨hlen, hidx⟩ := merge_map_files_ok w.length a.files nf0 hmf
        exact ⟨rfl, hlen, hidx⟩
  · intro hover
    obtain ⟨m, hm⟩ := merge_map_files_err w.length a.files hover
    refine ⟨m, ?_⟩
    unfold merge_contents
    have hcond : ¬ (a.files.isEmpty = true) := by rw [hemp]; simp
    rw [if_neg hcond, hm]

/-! C6: the ZIP64 extra-field branch. -/

theorem leVal_drop (bytes : List Nat) (pos i n : Nat) :
    leVal bytes (pos + i) n = leVal (bytes.drop pos) i n := by
  induction n generalizing i with
  | zero => rfl
  | succ m ih =>
    unfold leVal
    rw [List.getD_eq_getElem?_getD, List.getD_eq_getElem?_getD (bytes.drop pos),
      List.getElem?_drop, show pos + i + 1 = pos + (i + 1) from by omega, ih]

theorem leVal_prefix (p t : List Nat) (i n : Nat) (h : i + n ≤ p.length) :
    leVal (p ++ t) i n = leVal p i n := by
  induction n generalizing i with
  | zero => rfl
  | succ m ih =>
    unfold leVal
    rw [List.getD_append p t 0 i (by omega), ih (i + 1) (by omega)]

theorem leVal_at (extra : List Nat) (pos : Nat) (p rest : List Nat) (n : Nat)
    (hdrop : extra.drop pos = p ++ rest) (hn : n ≤ p.length) :
    leVal extra pos n = leVal p 0 n := by
  have h0 := leVal_drop extra pos 0 n
  rw [Nat.add_zero] at h0
  rw [h0, hdrop, leVal_prefix p rest 0 n (by omega)]

theorem drop_len_bound (extra : List Nat) (pos : Nat) (p rest : List Nat)
    (hdrop : extra.drop pos = p ++ rest) (hpos : pos ≤ extra.length) :
    pos + p.length ≤ extra.length := by
  have h := congrArg List.length hdrop
  rw [List.length_drop, List.length_append] at h
  omega

theorem drop_shift (extra : List Nat) (pos : Nat) (p rest : List Nat)
    (hdrop : extra.drop pos = p ++ rest) :
    extra.drop (pos + p.length) = rest := by
  rw [← List.drop_drop, hdrop, List.drop_left]

/-- The three sentinel-guarded reads of the ZIP64 extra, as one equation:
each present chunk (`p1`, `p2`, `p3`, in that order) is consumed as an
8-byte little-endian value, absent chunks are empty, and `large_file` is
set exactly when one of the two size fields is replaced. -/
theorem zip64ExtraChain_spec (extra : List Nat) (pos : Nat)
    (p1 p2 p3 rest : List Nat) (f : ZipFileData)
    (hdrop : extra.drop pos = p1 ++ (p2 ++ (p3 ++ rest)))
    (h1 : p1.length = if f.uncompressed_size = zip64BytesThr then 8 else 0)
    (h2 : p2.length = if f.compressed_size = zip64BytesThr then 8 else 0)
    (h3 : p3.length = if f.header_start = zip64BytesThr then 8 else 0)
    (hpos : pos ≤ extra.length) :
    zip64ExtraChain extra pos f =
      ({ f with
          uncompressed_size := if f.uncompressed_size = zip64BytesThr then leVal p1 0 8
            else f.uncompressed_size,
          compressed_size := if f.compressed_size = zip64BytesThr then leVal p2 0 8
            else f.compressed_size,
          header_start := if f.header_start = zip64BytesThr then leVal p3 0 8
            else f.header_start,
          large_file := if f.compressed_size = zip64BytesThr then true
            else if f.uncompressed_size = zip64BytesThr then true else f.large_file },
        pos + p1.length + p2.length + p3.length, none) := by
  by_cases hu : f.uncompressed_size = zip64BytesThr
  · rw [if_pos hu] at h1
    by_cases hc : f.compressed_size = zip64BytesThr
    · rw [if_pos hc] at h2
      by_cases hh : f.header_start = zip64BytesThr
      · rw [if_pos hh] at h3
        have b1 := drop_len_bound extra pos p1 _ hdrop hpos
        have d2 := drop_shift extra pos p1 _ hdrop
        have b2 := drop_len_bound extra (pos + p1.length) p2 _ d2 b1
        have d3 := drop_shift extra (pos + p1.length) p2 _ d2
        have b3 := drop_len_bound extra (pos + p1.length + p2.length) p3 _ d3 b2
        rw [h1] at b1 d2 b2 d3 b3
        rw [h2] at b2 d3 b3
        rw [h3] at b3
        simp only [if_pos hu, if_pos hc, if_pos hh, h1, h2, h3]
        unfold zip64ExtraChain zip64ExtraSize1 zip64ExtraSize2 zip64ExtraSize3 readLE
        rw [if_pos hu]
        rw [if_pos (show pos + 8 ≤ extra.length from by omega)]
        rw [leVal_at extra pos p1 (p2 ++ (p3 ++ rest)) 8 hdrop (by omega)]
        simp only []
        rw [if_pos hc]
        rw [if_pos (show pos + 8 + 8 ≤ extra.length from by omega)]
        rw [leVal_at extra (pos + 8) p2 (p3 ++ rest) 8 d2 (by omega)]
        simp only []
        rw [if_pos hh]
        rw [if_pos (show pos + 8 + 8 + 8 ≤ extra.length from by omega)]
        rw [leVal_at extra (pos + 8 + 8) p3 rest 8 d3 (by omega)]
      · rw [if_neg hh] at h3
        have e3 : p3 = [] := List.length_eq_zero.mp h3
        subst e3
        have b1 := drop_len_bound extra pos p1 _ hdrop hpos
        have d2 := drop_shift extra pos p1 _ hdrop
        have b2 := drop_len_bound extra (pos + p1.length) p2 _ d2 b1
        rw [h1] at b1 d2 b2
        rw [h2] at b2
        simp only [if_pos hu, if_pos hc, if_neg hh, h1, h2]
        unfold zip64ExtraChain zip64ExtraSize1 zip64ExtraSize2 zip64ExtraSize3 readLE
        rw [if_pos hu]
        rw [if_pos (show pos + 8 ≤ extra.length from by omega)]
        rw [leVal_at extra pos p1 (p2 ++ ([] ++ rest)) 8 hdrop (by omega)]
        simp only []
        rw [if_pos hc]
        rw [if_pos (show pos + 8 + 8 ≤ extra.length from by omega)]
        rw [leVal_at extra (pos + 8) p2 ([] ++ rest) 8 d2 (by omega)]
        simp only []
        rw [if_neg hh]
        rfl
    · rw [if_neg hc] at h2
      have e2 : p2 = [] := List.length_eq_zero.mp h2
      subst e2
      simp only [List.nil_append] at hdrop
      by_cases hh : f.header_start = zip64BytesThr
      · rw [if_pos hh] at h3
        have b1 := drop_len_bound extra pos p1 _ hdrop hpos
        have d2 := drop_shift extra pos p1 _ hdrop
        have b2 := drop_len_bound extra (pos + p1.length) p3 _ d2 b1
        rw [h1] at b1 d2 b2
        rw [h3] at b2
        simp only [if_pos hu, if_neg hc, if_pos hh, h1, h3]
        unfold zip64ExtraChain zip64ExtraSize1 zip64ExtraSize2 zip64ExtraSize3 readLE
        rw [if_pos hu]
        rw [if_pos (show pos + 8 ≤ extra.length from by omega)]
        rw [leVal_at extra pos p1 (p3 ++ rest) 8 hdrop (by omega)]
        simp only []
        rw [if_neg hc]
        simp only []
        rw [if_pos hh]
        rw [if_pos (show pos + 8 + 8 ≤ extra.length from by omega)]
        rw [leVal_at extra (pos + 8) p3 rest 8 d2 (by omega)]
        rfl
      · rw [if_neg hh] at h3
        have e3 : p3 = [] := List.length_eq_zero.mp h3
        subst e3
        have b1 := drop_len_bound extra pos p1 _ hdrop hpos
        rw [h1] at b1
        simp only [if_pos hu, if_neg hc, if_neg hh, h1]
        unfold zip64ExtraChain zip64ExtraSize1 zip64ExtraSize2 zip64ExtraSize3 readLE
        rw [if_pos hu]
        rw [if_pos (show pos + 8 ≤ extra.length from by omega)]
        rw [leVal_at extra pos p1 ([] ++ rest) 8 hdrop (by omega)]
        simp only []
        rw [if_neg hc]
        simp only []
        rw [if_neg hh]
        rfl
  · rw [if_neg hu] at h1
    have e1 : p1 = [] := List.length_eq_zero.mp h1
    subst e1
    simp only [List.nil_append] at hdrop
    by_cases hc : f.compressed_size = zip64BytesThr
    · rw [if_pos hc] at h2
      by_cases hh : f.header_start = zip64BytesThr
      · rw [if_pos hh] at h3
        have b1 := drop_len_bound extra pos p2 _ hdrop hpos
        have d2 := drop_shift extra pos p2 _ hdrop
        have b2 := drop_len_bound extra (pos + p2.length) p3 _ d2 b1
        rw [h2] at b1 d2 b2
        rw [h3] at b2
        simp only [if_neg hu, if_pos hc, if_pos hh, h2, h3]
        unfold zip64ExtraChain zip64ExtraSize1 zip64ExtraSize2 zip64ExtraSize3 readLE
        rw [if_neg hu]
        simp only []
        rw [if_pos hc]
        rw [if_pos (show pos + 8 ≤ extra.length from by omega)]
        rw [leVal_at extra pos p2 (p3 ++ rest) 8 hdrop (by omega)]
        simp only []
        rw [if_pos hh]
        rw [if_pos (show pos + 8 + 8 ≤ extra.length from by omega)]
        rw [leVal_at extra (pos + 8) p3 rest 8 d2 (by omega)]
        rfl
      · rw [if_neg hh] at h3
        have e3 : p3 = [] := List.length_eq_zero.mp h3
        subst e3
        have b1 := drop_len_bound extra pos p2 _ hdrop hpos
        rw [h2] at b1
        simp only [if_neg hu, if_pos hc, if_neg hh, h2]
        unfold zip64ExtraChain zip64ExtraSize1 zip64ExtraSize2 zip64ExtraSize3 readLE
        rw [if_neg hu]
        simp only []
        rw [if_pos hc]
        rw [if_pos (show pos + 8 ≤ extra.length from by omega)]
        rw [leVal_at extra pos p2 ([] ++ rest) 8 hdrop (by omega)]
        simp only []
        rw [if_neg hh]
        rfl
    · rw [if_neg hc] at h2
      have e2 : p2 = [] := List.length_eq_zero.mp h2
      subst e2
      simp only [List.nil_append] at hdrop
      by_cases hh : f.header_start = zip64BytesThr
      · rw [if_pos hh] at h3
        have b1 := drop_len_bound extra pos p3 _ hdrop hpos
        rw [h3] at b1
        simp only [if_neg hu, if_neg hc, if_pos hh, h3]
        unfold zip64ExtraChain zip64ExtraSize1 zip64ExtraSize2 zip64ExtraSize3 readLE
        rw [if_neg hu]
        simp only []
        rw [if_neg hc]
        simp only []
        rw [if_pos hh]
        rw [if_pos (show pos + 8 ≤ extra.length from by omega)]
        rw [leVal_at extra pos p3 rest 8 hdrop (by omega)]
        rfl
      · rw [if_neg hh] at h3
        have e3 : p3 = [] := List.length_eq_zero.mp h3
        subst e3
        simp only [if_neg hu, if_neg hc, if_neg hh]
        unfold zip64ExtraChain zip64ExtraSize1 zip64ExtraSize2 zip64ExtraSize3 readLE
        rw [if_neg hu]
        simp only []
        rw [if_neg hc]
        simp only []
        rw [if_neg hh]
        rfl

theorem parseExtraLoop_done (extra : List Nat) (fuel pos : Nat) (f : ZipFileData)
    (h : extra.length ≤ pos) : parseExtraLoop extra fuel pos f = (f, none) := by
  cases fuel with
  | zero => rfl
  | succ m =>
    unfold parseExtraLoop
    rw [if_neg (by omega)]

/-- A full run of the TLV loop over a well-formed single ZIP64 field. -/
theorem parseExtraLoop_zip64_core (extra : List Nat) (f : ZipFileData)
    (p1 p2 p3 : List Nat)
    (hlen : extra.length = 4 + (p1.length + p2.length + p3.length))
    (hdrop : extra.drop (0 + 4) = p1 ++ (p2 ++ (p3 ++ [])))
    (r1 : readLE extra 0 2 = Except.ok 1)
    (r2 : readLE extra (0 + 2) 2 = Except.ok (p1.length + p2.length + p3.length))
    (h1 : p1.length = if f.uncompressed_size = zip64BytesThr then 8 else 0)
    (h2 : p2.length = if f.compressed_size = zip64BytesThr then 8 else 0)
    (h3 : p3.length = if f.header_start = zip64BytesThr then 8 else 0) :
    parseExtraLoop extra (extra.length + 1) 0 f =
      ({ f with
          uncompressed_size := if f.uncompressed_size = zip64BytesThr then leVal p1 0 8
            else f.uncompressed_size,
          compressed_size := if f.compressed_size = zip64BytesThr then leVal p2 0 8
            else f.compressed_size,
          header_start := if f.header_start = zip64BytesThr then leVal p3 0 8
            else f.header_start,
          large_file := if f.compressed_size = zip64BytesThr then true
            else if f.uncompressed_size = zip64BytesThr then true else f.large_file },
        none) := by
  simp only [parseExtraLoop]
  rw [if_pos (show 0 < extra.length from by omega)]
  rw [r1]
  simp only []
  rw [r2]
  simp only []
  rw [if_true]
  rw [zip64ExtraChain_spec extra (0 + 4) p1 p2 p3 [] f hdrop h1 h2 h3 (by omega)]
  simp only []
  rw [show 0 + 4 + p1.length + p2.length + p3.length - (0 + 4)
      = p1.length + p2.length + p3.length from by omega]
  rw [if_neg (lt_irrefl (p1.length + p2.length + p3.length))]
  rw [parseExtraLoop_done extra extra.length
      (0 + 4 + p1.length + p2.length + p3.length) _ (by omega)]

/-- C6: when `parse_extra_field` meets a single well-formed `0x0001` (ZIP64)
TLV whose payload holds exactly one 8-byte chunk for each field of
`uncompressed_size`, `compressed_size`, `header_start` that equals the
`ZIP64_BYTES_THR` sentinel (in that order, fields not at the sentinel
consuming nothing), each such field is replaced by the little-endian value
of its chunk, `large_file` is set whenever one of the two sizes is
replaced, no other field changes, and no error results. -/
theorem c6_zip64_extra_field (f : ZipFileData) (p1 p2 p3 : List Nat)
    (h1 : p1.length = if f.uncompressed_size = zip64BytesThr then 8 else 0)
    (h2 : p2.length = if f.compressed_size = zip64BytesThr then 8 else 0)
    (h3 : p3.length = if f.header_start = zip64BytesThr then 8 else 0)
    (hx : f.extra_field =
      some ([1, 0] ++ u16le (p1.length + p2.length + p3.length) ++ (p1 ++ (p2 ++ p3)))) :
    parse_extra_field f =
      ({ f with
          uncompressed_size := if f.uncompressed_size = zip64BytesThr then leVal p1 0 8
            else f.uncompressed_size,
          compressed_size := if f.compressed_size = zip64BytesThr then leVal p2 0 8
            else f.compressed_size,
          header_start := if f.header_start = zip64BytesThr then leVal p3 0 8
            else f.header_start,
          large_file := if f.compressed_size = zip64BytesThr then true
            else if f.uncompressed_size = zip64BytesThr then true else f.large_file },
        none) := by
  have a1 : p1.length ≤ 8 := by rw [h1]; split <;> omega
  have a2 : p2.length ≤ 8 := by rw [h2]; split <;> omega
  have a3 : p3.length ≤ 8 := by rw [h3]; split <;> omega
  have hlen : ([1, 0] ++ u16le (p1.length + p2.length + p3.length)
      ++ (p1 ++ (p2 ++ p3))).length = 4 + (p1.length + p2.length + p3.length) := by
    simp only [List.length_append, List.length_cons, List.length_nil, u16le]
    omega
  have hdrop : ([1, 0] ++ u16le (p1.length + p2.length + p3.length)
      ++ (p1 ++ (p2 ++ p3))).drop (0 + 4) = p1 ++ (p2 ++ (p3 ++ [])) := by
    show p1 ++ (p2 ++ p3) = p1 ++ (p2 ++ (p3 ++ []))
    simp
  have r1 : readLE ([1, 0] ++ u16le (p1.length + p2.length + p3.length)
      ++ (p1 ++ (p2 ++ p3))) 0 2 = Except.ok 1 := by
    unfold readLE
    rw [if_pos (by omega)]
    rfl
  have hv2 : (p1.length + p2.length + p3.length) % 256
      + 256 * ((p1.length + p2.length + p3.length) / 256 % 256 + 256 * 0)
      = p1.length + p2.length + p3.length := by omega
  have r2 : readLE ([1, 0] ++ u16le (p1.length + p2.length + p3.length)
      ++ (p1 ++ (p2 ++ p3))) (0 + 2) 2
      = Except.ok (p1.length + p2.length + p3.length) := by
    unfold readLE
    rw [if_pos (by omega)]
    rw [show leVal ([1, 0] ++ u16le (p1.length + p2.length + p3.length)
        ++ (p1 ++ (p2 ++ p3))) (0 + 2) 2
      = (p1.length + p2.length + p3.length) % 256
        + 256 * ((p1.length + p2.length + p3.length) / 256 % 256 + 256 * 0) from rfl]
    rw [hv2]
  unfold parse_extra_field
  conv_lhs => rw [hx]
  simp only []
  exact parseExtraLoop_zip64_core _ f p1 p2 p3 hlen hdrop r1 r2 h1 h2 h3

/-! Concrete counterexamples and witnesses. -/

/-- Counterexample to the literal C1: `arch1` declares two entries with the
same name `a`; `new` succeeds, but `len()` is 1 while the winning EOCD
declares 2 files. -/
theorem c1_counterexample :
    zip_archive_new arch1 = .ok arch1Res ∧ arch1Res.len = 1 ∧
    Zip32CentralDirectoryEnd.find_and_parse arch1 = .ok (footer1, 94) ∧
    footer1.number_of_files = 2 :=
  ⟨rfl, rfl, rfl, rfl⟩

/-- Witness for C1 at the duplicate-name archive `arch1`. -/
theorem c1_witness :
    zip_archive_new arch1 = .ok arch1Res ∧
    ∃ footer cde info,
      Zip32CentralDirectoryEnd.find_and_parse arch1 = .ok (footer, cde) ∧
      .ok info ∈ candidate_results arch1 footer cde ∧
      parse_candidate arch1 info =
        .ok { files := arch1Res.files, offset := arch1Res.offset,
              dir_start := arch1Res.dir_start } ∧
      arch1Res.len ≤ info.number_of_files :=
  ⟨rfl, c1_len_le_declared arch1 arch1Res rfl⟩

/-- Counterexample to the literal C2: with the EOCD size/offset check
failing, `new` on `arch2` fails with `Io`, and on `arch4` with the panic of
the ZIP64 window search — neither is an `InvalidArchive` value. -/
theorem c2_counterexample :
    Zip32CentralDirectoryEnd.find_and_parse arch2 = .ok (footer2, 0) ∧
    0 < footer2.central_directory_size + footer2.central_directory_offset ∧
    zip_archive_new arch2 = .error .io ∧
    Zip32CentralDirectoryEnd.find_and_parse arch4 = .ok (footer4, 60) ∧
    60 < footer4.central_directory_size + footer4.central_directory_offset ∧
    zip_archive_new arch4 = .error (.panicked msg_panic_window) :=
  ⟨rfl, by decide, rfl, rfl, by decide, rfl⟩

/-- Witness for C2 at `arch2`. -/
theorem c2_witness :
    Zip32CentralDirectoryEnd.find_and_parse arch2 = .ok (footer2, 0) ∧
    0 < footer2.central_directory_size + footer2.central_directory_offset ∧
    ∃ e, zip_archive_new arch2 = .error e ∧ plain_error e :=
  ⟨rfl, by decide,
    c2_invalid_offset_errors arch2 footer2 0 rfl (by decide)
      (fun r hr => by
        rw [show raw_zip64_results arch2 footer2 0 = [.error .io] from rfl] at hr
        simp only [List.mem_singleton] at hr
        exact ⟨.io, hr⟩)⟩

/-- Counterexample to the literal C3: the ZIP64 candidate of `arch3` has
directory offset 79 ≤ `cde_start_pos` = 80 and passes the file-count and
version checks, yet it is rejected, because the actual bound is
`cde_start_pos − 60 = 20`. -/
theorem c3_counterexample :
    Zip32CentralDirectoryEnd.find_and_parse arch3 = .ok (footer3, 80) ∧
    Zip64CentralDirectoryEnd.find_and_parse arch3 0 (80 - 60) = .ok [(z64rec3, 0)] ∧
    z64rec3.central_directory_offset + 0 ≤ 80 ∧
    z64rec3.number_of_files_on_this_disk ≤ z64rec3.number_of_files ∧
    z64rec3.version_needed_to_extract ≤ z64rec3.version_made_by ∧
    checkZip64Candidate (80 - 60) (z64rec3, 0) =
      .error (.invalidArchive msg_invalid_cd_size_offset) :=
  ⟨rfl, rfl, by decide, by decide, by decide, rfl⟩

/-- Witness for C3 at `arch3`. -/
theorem c3_witness :
    get_directory_info_zip64 arch3 footer3 80 = .ok results3 ∧
    (60 ≤ 80 ∧
    ∃ loc cands,
      Zip64CentralDirectoryEndLocator.parse arch3
          (arch3.length - (42 + footer3.zip_file_comment.length)) = .ok loc ∧
      Zip64CentralDirectoryEnd.find_and_parse arch3
          loc.end_of_central_directory_offset (80 - 60) = .ok cands ∧
      results3 = cands.map (checkZip64Candidate (80 - 60)) ∧
      ∀ c ∈ cands,
        ((∃ info, checkZip64Candidate (80 - 60) c = .ok info) ↔
          (c.1.central_directory_offset + c.2 < 2 ^ 64 ∧
           c.1.central_directory_offset + c.2 ≤ 80 - 60 ∧
           c.1.number_of_files_on_this_disk ≤ c.1.number_of_files ∧
           c.1.version_needed_to_extract ≤ c.1.version_made_by)) ∧
        (∀ info, checkZip64Candidate (80 - 60) c = .ok info →
          info.archive_offset = c.2 ∧
          info.directory_start = c.1.central_directory_offset + c.2 ∧
          info.number_of_files = c.1.number_of_files) ∧
        (∀ e, checkZip64Candidate (80 - 60) c = .error e →
          ∃ m, e = .invalidArchive m)) :=
  ⟨rfl, c3_zip64_candidate_checks arch3 footer3 80 results3 rfl⟩

/-- Witness for C4 at `arch1`. -/
theorem c4_witness :
    get_metadata arch1 footer1 94 = .ok s1 ∧
    (s1 ∈ ok_results (parsed_results arch1 footer1 94) ∧
      ∀ t ∈ ok_results (parsed_results arch1 footer1 94), t.dir_start ≤ s1.dir_start) :=
  ⟨rfl, c4_largest_dir_start arch1 footer1 94 s1 rfl⟩

/-- Witness for C5 at `arch2`. -/
theorem c5_witness :
    ok_results (parsed_results arch2 footer2 0) = [] ∧
    ∃ e, get_metadata arch2 footer2 0 = .error e ∧
      ((errors_of (parsed_results arch2 footer2 0)).find? is_unsupported = some e ∨
        ((errors_of (parsed_results arch2 footer2 0)).find? is_unsupported = none ∧
          (errors_of (parsed_results arch2 footer2 0)).head? = some e)) :=
  ⟨rfl, c5_error_aggregation arch2 footer2 0 rfl⟩

/-- Witness for C6 at a descriptor with all three sentinel fields set. -/
theorem c6_witness :
    (c6p1.length = if c6f.uncompressed_size = zip64BytesThr then 8 else 0) ∧
    (c6p2.length = if c6f.compressed_size = zip64BytesThr then 8 else 0) ∧
    (c6p3.length = if c6f.header_start = zip64BytesThr then 8 else 0) ∧
    c6f.extra_field = some ([1, 0] ++ u16le (c6p1.length + c6p2.length + c6p3.length)
      ++ (c6p1 ++ (c6p2 ++ c6p3))) ∧
    parse_extra_field c6f =
      ({ c6f with
          uncompressed_size := if c6f.uncompressed_size = zip64BytesThr then leVal c6p1 0 8
            else c6f.uncompressed_size,
          compressed_size := if c6f.compressed_size = zip64BytesThr then leVal c6p2 0 8
            else c6f.compressed_size,
          header_start := if c6f.header_start = zip64BytesThr then leVal c6p3 0 8
            else c6f.header_start,
          large_file := if c6f.compressed_size = zip64BytesThr then true
            else if c6f.uncompressed_size = zip64BytesThr then true else c6f.large_file },
        none) :=
  ⟨by decide, by decide, by decide, by decide,
    c6_zip64_extra_field c6f c6p1 c6p2 c6p3 (by decide) (by decide) (by decide) (by decide)⟩

/-- Counterexample to the literal C7: `chBytesAes` parses to a descriptor
with `aes_mode` set but `encrypted` false; a password-free `by_index`
yields `InvalidPassword`, not a successful plaintext read. -/
theorem c7_counterexample :
    central_header_to_zip_file chBytesAes 0 0 = .ok (dAes, 58) ∧
    dAes.encrypted = false ∧ dAes.aes_mode ≠ none ∧
    by_index archAes 0 = .error .invalidPassword :=
  ⟨rfl, rfl, by decide, rfl⟩

/-- Witness for C7: the encrypted entry of `archEnc` without a password,
and the unencrypted entry of `archPlain` with a discarded password. -/
theorem c7_witness :
    archEnc.files.get? 0 = some ([97], dEnc) ∧ dEnc.encrypted = true ∧
    by_index_with_optional_password archEnc 0 none =
      .error (.unsupportedArchive msg_password_required) ∧
    archPlain.files.get? 0 = some ([97], dPlain) ∧ dPlain.encrypted = false ∧
    by_index_with_optional_password archPlain 0 (some [5]) =
      by_index_with_optional_password archPlain 0 none :=
  ⟨rfl, rfl, (c7_password_logic archEnc 0 [97] dEnc [5] rfl).1 rfl,
    rfl, rfl, (c7_password_logic archPlain 0 [97] dPlain [5] rfl).2.1 rfl⟩

/-- Witness for C8 at `dPlain` over `localHeaderBytes`. -/
theorem c8_witness :
    find_content dPlain localHeaderBytes = .ok (dPlainDS, []) ∧
    ∃ ds, dPlainDS = { dPlain with data_start := some ds } ∧
      (dPlain.data_start = some ds ∨
        (dPlain.data_start = none ∧
          ds = dPlain.header_start + 30 + leVal localHeaderBytes (dPlain.header_start + 26) 2 +
            leVal localHeaderBytes (dPlain.header_start + 28) 2)) ∧
      ([] : List Nat) = sliceL localHeaderBytes ds dPlain.compressed_size ∧
      ([] : List Nat).length ≤ dPlain.compressed_size ∧
      find_content dPlainDS localHeaderBytes = .ok (dPlainDS, []) :=
  ⟨rfl, c8_data_start_once dPlain localHeaderBytes dPlainDS [] rfl⟩

/-- Witness for C9 at `archMerge` with writer `wMerge`. -/
theorem c9_witness :
    archMerge.files ≠ [] ∧
    ((∀ nf w2, merge_contents archMerge wMerge = .ok (nf, w2) →
      w2 = wMerge ++ sliceL archMerge.bytes 0 archMerge.dir_start ∧
      nf.length = archMerge.files.length ∧
      ∀ i k f, archMerge.files.get? i = some (k, f) →
        nf.get? i = some (k, merge_shift wMerge.length f)) ∧
    ((∃ kf ∈ archMerge.files, 2 ^ 64 ≤ kf.2.header_start + wMerge.length ∨
        (∃ ds, kf.2.data_start = some ds ∧ 2 ^ 64 ≤ ds + wMerge.length)) →
      ∃ m, merge_contents archMerge wMerge = .error (.invalidArchive m))) :=
  ⟨by decide, c9_merge_contents archMerge wMerge (by decide)⟩

/-- Claim C10: an input shorter than the 22-byte fixed EOCD record is
rejected as `InvalidArchive ("Invalid zip header")` by the length check that
precedes the windowed signature search (the search itself can only fail
with the distinct message `msg_no_cde`), so in particular the empty input
is rejected without looping or panicking. -/
theorem c10_short_input_invalid (bytes : List Nat) (h : bytes.length < 22) :
    Zip32CentralDirectoryEnd.find_and_parse bytes =
      .error (.invalidArchive msg_invalid_zip_header) ∧
    zip_archive_new bytes = .error (.invalidArchive msg_invalid_zip_header) := by
  have h1 : Zip32CentralDirectoryEnd.find_and_parse bytes =
      .error (.invalidArchive msg_invalid_zip_header) := by
    unfold Zip32CentralDirectoryEnd.find_and_parse
    simp [h]
  refine ⟨h1, ?_⟩
  unfold zip_archive_new
  rw [h1]

/-- Witness for C10 at the empty input. -/
theorem c10_witness :
    List.length ([] : List Nat) < 22 ∧
      (Zip32CentralDirectoryEnd.find_and_parse [] =
        .error (.invalidArchive msg_invalid_zip_header) ∧
      zip_archive_new [] = .error (.invalidArchive msg_invalid_zip_header)) :=
  ⟨by decide, c10_short_input_invalid [] (by decide)⟩
